import Mathlib

/-!
# kaldi-audio-server: worker pool and session protocol

A shallow embedding of `src/audio-server-online2-nnet3.cc`:

* the decoder pool (`DecoderPool::Run`, `DecoderPool::NewTask`,
  `DecoderPool::IsBusy` and the release at the end of
  `DecoderPool::ThreadProc`), as functions on an explicit pool state that also
  records the descriptors handed to `close(2)`;
* the output side (`WriteLine`, `GetDiagnosticsAndPrintOutput`) and the
  per-connection loop of `DecoderPool::ThreadProc`, run against an arbitrary
  Recognizer, an arbitrary sequence of `Read` results and an arbitrary
  sequence of `write(2)` results.

The `int32` sample counters of the session are unbounded integers here, so the
model agrees with the program only while the samples counted stay within
`int32` (up to 2^31 - 1 samples, more than 37 hours of 16 kHz audio): every
theorem about a stream that counts samples carries that bound as a hypothesis.
-/

set_option maxRecDepth 20000

namespace KaldiAudioServer

/-! ## Decoder pool -/

/-- The mutable fields of `DecoderPool::DecoderThread` (lines 150-158). -/
structure DecoderThread where
  _client_socket : Int
  _is_free : Bool
deriving DecidableEq, Repr

/-- The pool: the array `_decoder_threads` (`_num` is its length) together with
the descriptors passed to `close(2)` so far, oldest first. -/
structure DecoderPool where
  _decoder_threads : List DecoderThread
  closed : List Int
deriving DecidableEq, Repr

namespace DecoderPool

/-- The field `_num`. -/
def _num (p : DecoderPool) : Nat := p._decoder_threads.length

/-- `DecoderPool::Run` (lines 624-648): `n` workers, each with
`_is_free = true` and `_client_socket = -1`. -/
def Run (n : Nat) : DecoderPool :=
  { _decoder_threads := List.replicate n { _client_socket := -1, _is_free := true }
    closed := [] }

/-- The `for` loop of `DecoderPool::NewTask` (lines 651-661): the first worker
with `_is_free` set is marked busy and given the socket; `none` when the loop
runs to the end without returning. -/
def NewTask.scan (client_socket : Int) : List DecoderThread → Option (List DecoderThread)
  | [] => none
  | t :: ts =>
    if t._is_free then
      some ({ t with _is_free := false, _client_socket := client_socket } :: ts)
    else
      (NewTask.scan client_socket ts).map (fun r => t :: r)

/-- `DecoderPool::NewTask` (lines 650-663): assign to the first free worker,
otherwise `close(client_socket)`. -/
def NewTask (p : DecoderPool) (client_socket : Int) : DecoderPool :=
  match NewTask.scan client_socket p._decoder_threads with
  | some ts => { p with _decoder_threads := ts }
  | none => { p with closed := p.closed ++ [client_socket] }

/-- `DecoderPool::IsBusy` (lines 665-672). -/
def IsBusy (p : DecoderPool) : Bool :=
  p._decoder_threads.any (fun t => !t._is_free)

/-- The end of a session in `DecoderPool::ThreadProc` (lines 615-617), for the
worker at index `i`: `close(dt->_client_socket)`, `dt->_is_free = true`,
`dt->_client_socket = -1`. -/
def ThreadProc_release (p : DecoderPool) (i : Nat) : DecoderPool :=
  match p._decoder_threads.get? i with
  | none => p
  | some dt =>
    { _decoder_threads :=
        p._decoder_threads.set i { _client_socket := -1, _is_free := true }
      closed := p.closed ++ [dt._client_socket] }

/-- The pool states the server can be in: the pool built by `Run n`, then any
number of `NewTask` calls (line 422 passes whatever `TcpServer::Accept`
returned, and `Accept` returns the result of `accept(2)` unchecked, lines
494-508; `accepted` says which descriptors that can be) and of session ends
of workers that were running a session (a worker only leaves its polling loop
when `_client_socket != -1`, line 535). A step is one critical section: both
`NewTask` and the worker change the two fields under the worker's `_lock`. -/
inductive Reachable (accepted : Int → Prop) (n : Nat) : DecoderPool → Prop
  | run : Reachable accepted n (Run n)
  | newTask (p : DecoderPool) (client_socket : Int) :
      Reachable accepted n p → accepted client_socket →
      Reachable accepted n (NewTask p client_socket)
  | release (p : DecoderPool) (i : Nat) (dt : DecoderThread) :
      Reachable accepted n p → p._decoder_threads.get? i = some dt →
      dt._client_socket ≠ -1 → Reachable accepted n (ThreadProc_release p i)

/-- A worker holds a connection exactly when it is busy. -/
def ConnIffBusy (p : DecoderPool) : Prop :=
  ∀ dt ∈ p._decoder_threads, (dt._client_socket ≠ -1 ↔ dt._is_free = false)

end DecoderPool

/-! ## Wire protocol -/

/-- The value one `write(2)` call reports for a buffer of `count` bytes when the
kernel's answer is `r`: a failure (`r ≤ 0`) as it is, otherwise the number of
bytes taken, never more than `count`. -/
def sysWrite (r : Int) (count : Int) : Int :=
  if r ≤ 0 then r else min r count

/-- The `while (to_write > 0)` loop of `WriteLine` (lines 175-182), against the
answers `rets` of the coming `write(2)` calls; when those run out the kernel
takes all that is left. Returns the result of `WriteLine` and the answers not
yet used. -/
def WriteLine.loop : Int → List Int → Bool × List Int
  | _, [] => (true, [])
  | to_write, r :: rets =>
    if to_write > 0 then
      if sysWrite r to_write ≤ 0 then (false, rets)
      else WriteLine.loop (to_write - sysWrite r to_write) rets
    else (true, r :: rets)

/-- `WriteLine` (lines 169-185): the line and a newline, `line.size()` bytes. -/
def WriteLine (rets : List Int) (line : String) : Bool × List Int :=
  WriteLine.loop ((line ++ "\n").utf8ByteSize : Int) rets

/-- The four lines of the protocol, before they are printed. `PARTIAL` carries
the text after `PARTIAL:`, `NUM` the word count and `tot_samples`, `WORD` the
word with `times[i]` and `lengths[i]`. -/
inductive Line where
  | PARTIAL (result : String)
  | NUM (words_num : Int) (tot_samples : Int)
  | WORD (word : String) (time : Int) (length : Int)
  | DONE
deriving DecidableEq, Repr

/-- How the `float` values of lines 239-240 and 262-266 print: `dur` (from
`clock()`), `input_dur = tot_samples / 16000.0`, `start = times[i] *
secs_per_frame` and `start + lengths[i] * secs_per_frame`. Floating point and
the clock are outside the embedding, so the four texts are parameters. -/
structure FloatFmt where
  dur : String
  input_dur : Int → String
  start : Int → String
  stop : Int → Int → String

/-- The text handed to `WriteLine` for each line (lines 213, 243-244, 266, 613). -/
def Line.render (F : FloatFmt) : Line → String
  | .PARTIAL result => "PARTIAL:" ++ result
  | .NUM words_num tot_samples =>
    "RESULT:NUM=" ++ toString words_num ++ ",FORMAT=WSE,RECO-DUR=" ++ F.dur ++
      ",INPUT-DUR=" ++ F.input_dur tot_samples
  | .WORD word time length =>
    "RESULT:WORD=" ++ word ++ "," ++ F.start time ++ "," ++ F.stop time length
  | .DONE => "RESULT:DONE"

/-- What a lattice returned by `GetBestPath` yields through the Kaldi calls of
`GetDiagnosticsAndPrintOutput`: `linear` is the word sequence of
`GetLinearSymbolSequence` (line 201), `words`, `times`, `lengths` the three
vectors of `CompactLatticeToWordAlignment` (lines 223-231). -/
structure Lattice where
  linear : List Int
  words : List Int
  times : List Int
  lengths : List Int

/-- The Recognizer: the feature pipeline and decoder of one utterance (lines
542-551) as a state `R` with the calls `ThreadProc` makes on it. -/
structure Recognizer (R : Type) where
  init : R
  AcceptWaveform : R → List Int → R
  AdvanceDecoding : R → R
  NumFramesDecoded : R → Int
  GetBestPath : R → Bool → Lattice
  InputFinished : R → R
  FinalizeDecoding : R → R

/-- What a session does, as seen from outside: its calls on the Recognizer that
matter for the protocol, and each `WriteLine` call with the value it returned. -/
inductive Event where
  | AdvanceDecoding
  | GetBestPath (end_of_utterance : Bool)
  | InputFinished
  | FinalizeDecoding
  | WriteLine (line : Line) (ok : Bool)
deriving DecidableEq, Repr

/-- The lines handed to `WriteLine`, in order. -/
def linesOf : List Event → List Line
  | [] => []
  | Event.WriteLine line _ :: es => line :: linesOf es
  | _ :: es => linesOf es

/-- No `WriteLine` call of the log returned `false`: every line went out whole. -/
def allWritten (log : List Event) : Prop :=
  ∀ line ok, Event.WriteLine line ok ∈ log → ok = true

/-- An event without the result of the write. -/
def Event.attempt : Event → Event
  | Event.WriteLine line _ => Event.WriteLine line true
  | e => e

/-- The loop of lines 204-211: the non-empty symbols, joined by blanks. -/
def partialResult (word_syms : Int → String) (words : List Int) : String :=
  words.foldl
    (fun result w =>
      if word_syms w ≠ "" then
        (if result ≠ "" then result ++ " " else result) ++ word_syms w
      else result)
    ""

/-- The loop of lines 233-237. -/
def words_num (words : List Int) : Int :=
  words.foldl (fun n w => if w ≠ 0 then n + 1 else n) 0

/-- Lines 253-257: the symbol of a word, `"???"` when it is empty or there is
no symbol table. -/
def wordText (word_syms : Option (Int → String)) (w : Int) : String :=
  if (match word_syms with | some find => find w | none => "") = "" then "???"
  else (match word_syms with | some find => find w | none => "")

/-- The loop of lines 249-270 from index `i` on, over the words not yet
visited: the `RESULT:WORD` lines handed to `WriteLine`. Kaldi returns `times`
and `lengths` as long as `words`; an index past their end reads as 0 here. -/
def wordLoop (word_syms : Option (Int → String)) (times lengths : List Int) :
    Nat → List Int → List Line
  | _, [] => []
  | i, w :: ws =>
    if w = 0 then wordLoop word_syms times lengths (i + 1) ws
    else
      Line.WORD (wordText word_syms w) (times.getD i 0) (lengths.getD i 0) ::
        wordLoop word_syms times lengths (i + 1) ws

/-- `GetDiagnosticsAndPrintOutput` (lines 187-275): the lines it hands to
`WriteLine`, in order. It ignores what `WriteLine` returns. -/
def GetDiagnosticsAndPrintOutput (end_of_utterance : Bool)
    (word_syms : Option (Int → String)) (lat : Lattice) (tot_samples : Int) : List Line :=
  if !end_of_utterance then
    match word_syms with
    | some find =>
      if partialResult find lat.linear ≠ "" then
        [Line.PARTIAL (partialResult find lat.linear)]
      else []
    | none => []
  else
    Line.NUM (words_num lat.words) tot_samples ::
      wordLoop word_syms lat.times lat.lengths 0 lat.words

/-- The `WriteLine` calls for a list of lines: each result is recorded in the
event and used for nothing else, as in the callers (lines 214, 245, 268, 613). -/
def writeLines (F : FloatFmt) : List Line → List Int → List Event × List Int
  | [], rets => ([], rets)
  | l :: ls, rets =>
    (Event.WriteLine l (WriteLine rets (l.render F)).1 ::
        (writeLines F ls (WriteLine rets (l.render F)).2).1,
      (writeLines F ls (WriteLine rets (l.render F)).2).2)

/-! ## Session -/

/-- The configuration `ThreadProc` reads: `packet_size`, the `chunk_length`
computed in lines 556-562, `_word_syms`, and the printing of floats. -/
structure Config where
  packet_size : Int
  chunk_length : Int
  word_syms : Option (Int → String)
  fmt : FloatFmt

/-- Lines 556-562: `chunk_length` from `chunk_length_secs`. `positive` is the
test `chunk_length_secs > 0` and `scaled` the value of
`static_cast<int32>(samp_freq * chunk_length_secs)`, both computed in floating
point by the caller. -/
def chunk_length (positive : Bool) (scaled : Int) : Int :=
  if positive then (if scaled = 0 then 1 else scaled) else 2147483647

/-- `packet_size / 2` (lines 573, 578), the `int32` division of C++. -/
def packet_samples (cfg : Config) : Int := Int.tdiv cfg.packet_size 2

/-- The state of one utterance (lines 542-569): the Recognizer and the three
counters. The source declares the counters `int32` (line 567); here they are
unbounded, so a statement about them speaks of the program only while
`samp_offset` stays at most 2^31 - 1. -/
structure Session (R : Type) where
  decoder : R
  samp_offset : Int
  samp_partial : Int
  samp_process : Int

/-- The state at line 567. -/
def Session.start {R : Type} (rec : Recognizer R) : Session R :=
  { decoder := rec.init, samp_offset := 0, samp_partial := 0, samp_process := 0 }

/-- One result of `au_src.Read` (line 574): the value returned and the content
of `wav_data` after the call. -/
structure ReadResult where
  ans : Bool
  wav_data : List Int
deriving DecidableEq, Repr

/-- Lines 573-578: the packet goes to the Recognizer, and a full packet
advances `samp_offset`. -/
def readStep {R : Type} (cfg : Config) (rec : Recognizer R) (s : Session R)
    (rd : ReadResult) : Session R :=
  if rd.ans then
    { s with decoder := rec.AcceptWaveform s.decoder rd.wav_data
             samp_offset := s.samp_offset + packet_samples cfg }
  else
    { s with decoder := rec.AcceptWaveform s.decoder rd.wav_data }

/-- Lines 581-593, the decode-advance step: `0.3 * samp_freq` is the `double`
4800.0 exactly. Returns the session, the events and the unused `write(2)`
answers. -/
def decodeStep {R : Type} (cfg : Config) (rec : Recognizer R) (s : Session R)
    (rets : List Int) : Session R × List Event × List Int :=
  let s1 : Session R :=
    { s with samp_process := s.samp_offset, decoder := rec.AdvanceDecoding s.decoder }
  if s1.samp_offset - s1.samp_partial > 4800 ∧ rec.NumFramesDecoded s1.decoder > 0 then
    let s2 : Session R := { s1 with samp_partial := s1.samp_offset }
    let lat := rec.GetBestPath s2.decoder false
    let out :=
      writeLines cfg.fmt
        (GetDiagnosticsAndPrintOutput false cfg.word_syms lat s2.samp_offset) rets
    (s2, Event.AdvanceDecoding :: Event.GetBestPath false :: out.1, out.2)
  else
    (s1, [Event.AdvanceDecoding], rets)

/-- What `Read` gives once the peer has closed: `false`, and `wav_data` still
the zeros of line 573. -/
def endOfStream (cfg : Config) : ReadResult :=
  { ans := false, wav_data := List.replicate (packet_samples cfg).toNat 0 }

/-- The client loop (lines 572-595) over the coming `Read` results; after the
last of them the peer has closed. Returns the session at line 596, the events,
the unused `write(2)` answers and the `Read` results not yet consumed. -/
def clientLoop {R : Type} (cfg : Config) (rec : Recognizer R) :
    List ReadResult → Session R → List Int →
      Session R × List Event × List Int × List ReadResult
  | [], s, rets =>
    let d := decodeStep cfg rec (readStep cfg rec s (endOfStream cfg)) rets
    (d.1, d.2.1, d.2.2, [])
  | rd :: rest, s, rets =>
    let s1 := readStep cfg rec s rd
    if s1.samp_offset - s1.samp_process < cfg.chunk_length ∧ rd.ans = true then
      clientLoop cfg rec rest s1 rets
    else
      let d := decodeStep cfg rec s1 rets
      if rd.ans then
        let r := clientLoop cfg rec rest d.1 d.2.2
        (r.1, d.2.1 ++ r.2.1, r.2.2)
      else
        (d.1, d.2.1, d.2.2, rest)

/-- Lines 601-613: the final decode, its lines and `RESULT:DONE`. Returns the
events and the unused `write(2)` answers. -/
def finalDecode {R : Type} (cfg : Config) (rec : Recognizer R) (s : Session R)
    (rets : List Int) : List Event × List Int :=
  let d := rec.FinalizeDecoding (rec.AdvanceDecoding (rec.InputFinished s.decoder))
  let lat := rec.GetBestPath d true
  let out :=
    writeLines cfg.fmt
      (GetDiagnosticsAndPrintOutput true cfg.word_syms lat s.samp_offset ++ [Line.DONE])
      rets
  (Event.InputFinished :: Event.AdvanceDecoding :: Event.FinalizeDecoding ::
      Event.GetBestPath true :: out.1, out.2)

/-- The utterance loop of `ThreadProc` (lines 541-614), at most `fuel` times
round: a fresh Recognizer and counters, the client loop, then either the
`break` of line 598 or the final decode and the next utterance on the same
socket. `none` when `fuel` runs out before the `break`. -/
def utteranceLoop {R : Type} (cfg : Config) (rec : Recognizer R) :
    Nat → List ReadResult → List Int → Option (List Event)
  | 0, _, _ => none
  | fuel + 1, reads, rets =>
    let c := clientLoop cfg rec reads (Session.start rec) rets
    if c.1.samp_offset = 0 then
      some c.2.1
    else
      let f := finalDecode cfg rec c.1 c.2.2.1
      (utteranceLoop cfg rec fuel c.2.2.2 f.2).map (fun later => c.2.1 ++ f.1 ++ later)

/-- What one worker does with one connection between lines 540 and 615: the
utterance loop over the `Read` results `reads` (then end of stream) and the
`write(2)` answers `rets`. Every round but the last consumes a `Read` result,
so `reads.length + 1` rounds always reach the `break`. -/
def ThreadProc_session {R : Type} (cfg : Config) (rec : Recognizer R)
    (reads : List ReadResult) (rets : List Int) : Option (List Event) :=
  utteranceLoop cfg rec (reads.length + 1) reads rets

/-- The Recognizer at line 607, where the final hypothesis is requested: the
state at the end of the client loop after `InputFinished`, `AdvanceDecoding`
and `FinalizeDecoding` (lines 601-604). -/
def finalDecoder {R : Type} (rec : Recognizer R) (s : Session R) : R :=
  rec.FinalizeDecoding (rec.AdvanceDecoding (rec.InputFinished s.decoder))

/-- The final hypothesis of the first utterance of a connection: what
`GetBestPath(true, &lat)` returns at line 607 after the client loop over
`reads`. -/
def finalHypothesis {R : Type} (cfg : Config) (rec : Recognizer R)
    (reads : List ReadResult) (rets : List Int) : Lattice :=
  rec.GetBestPath
    (finalDecoder rec (clientLoop cfg rec reads (Session.start rec) rets).1) true

/-! ## The word lines as the specification words them -/

/-- The word lines as the specification describes them: the entries of the
alignment whose word id is not 0, in their order, each as a `RESULT:WORD` line
with the symbol of the id, or the placeholder `"???"` when that symbol is empty
or there is no symbol table. -/
def WordLines_spec (word_syms : Option (Int → String)) (words times lengths : List Int) :
    List Line :=
  ((words.zip (times.zip lengths)).filter (fun e => decide (e.1 ≠ 0))).map
    (fun e =>
      Line.WORD
        (match word_syms with
          | some find => if find e.1 = "" then "???" else find e.1
          | none => "???")
        e.2.1 e.2.2)

/-! ## Concrete sessions used to evaluate the model -/

namespace Demo

/-- A Recognizer that counts the packets it was given, reports that many
decoded frames, and always returns the same hypothesis: the word 1, and an
alignment of a silence and the words 1 and 2. -/
def recognizer : Recognizer Nat :=
  { init := 0
    AcceptWaveform := fun n _ => n + 1
    AdvanceDecoding := fun n => n
    NumFramesDecoded := fun n => n
    GetBestPath := fun _ _ =>
      { linear := [1], words := [0, 1, 2], times := [0, 3, 7], lengths := [3, 4, 2] }
    InputFinished := fun n => n
    FinalizeDecoding := fun n => n }

/-- Fixed texts for the floating-point fields. -/
def fmt : FloatFmt :=
  { dur := "0.1", input_dur := fun _ => "0.3", start := fun _ => "0", stop := fun _ _ => "1" }

/-- A symbol table that knows the word 1 only. -/
def word_syms : Int → String := fun w => if w = 1 then "a" else ""

/-- The defaults of lines 44-45: packets of 512 bytes (256 samples) and chunks
of 0.18 s (2880 samples). -/
def configDefault : Config :=
  { packet_size := 512, chunk_length := chunk_length true 2880
    word_syms := some word_syms, fmt := fmt }

/-- The default packets and a chunk of one second (16000 samples). -/
def configLongChunk : Config :=
  { packet_size := 512, chunk_length := chunk_length true 16000
    word_syms := some word_syms, fmt := fmt }

/-- The default packets with `chunk_length_secs <= 0`: the whole input in one
chunk (line 561). -/
def configOneChunk : Config :=
  { packet_size := 512, chunk_length := chunk_length false 0
    word_syms := some word_syms, fmt := fmt }

/-- Packets of 9600 bytes (4800 samples, 0.3 s) and the default chunk. -/
def configPacket4800 : Config :=
  { packet_size := 9600, chunk_length := chunk_length true 2880
    word_syms := some word_syms, fmt := fmt }

/-- A session at line 581 with exactly 4800 samples received, none of them
reported in a partial result yet, and one packet in the Recognizer. -/
def sessionAt4800 : Session Nat :=
  { decoder := 1, samp_offset := 4800, samp_partial := 0, samp_process := 0 }

/-- A Recognizer whose state is the number of non-zero samples it was given;
it reports that number as decoded frames and returns the hypothesis of
`recognizer`. -/
def sampleCounter : Recognizer Nat :=
  { init := 0
    AcceptWaveform := fun n wav => n + (wav.filter (fun x => decide (x ≠ 0))).length
    AdvanceDecoding := fun n => n
    NumFramesDecoded := fun n => n
    GetBestPath := fun _ _ =>
      { linear := [1], words := [0, 1, 2], times := [0, 3, 7], lengths := [3, 4, 2] }
    InputFinished := fun n => n
    FinalizeDecoding := fun n => n }

/-- A short read with the default packets: the peer sends 100 samples and
closes. `Read` returns `false` and `wav_data` holds the 100 samples followed
by the zeros of line 573. -/
def shortRead : ReadResult :=
  { ans := false, wav_data := List.replicate 100 7 ++ List.replicate 156 0 }

end Demo

/-! ## Pool lemmas -/

namespace DecoderPool

theorem scan_none_iff (c : Int) (ts : List DecoderThread) :
    NewTask.scan c ts = none ↔ ∀ t ∈ ts, t._is_free = false := by
  induction ts with
  | nil => simp [NewTask.scan]
  | cons t ts ih =>
    by_cases h : t._is_free = true
    · simp [NewTask.scan, h]
    · simp [NewTask.scan, h, ih]

theorem scan_first_free (c : Int) (ts : List DecoderThread)
    (h : ∃ t ∈ ts, t._is_free = true) :
    ∃ i dt, ts.get? i = some dt ∧ dt._is_free = true ∧
      (∀ j dj, j < i → ts.get? j = some dj → dj._is_free = false) ∧
      NewTask.scan c ts = some (ts.set i { _client_socket := c, _is_free := false }) := by
  induction ts with
  | nil => simp at h
  | cons t ts ih =>
    by_cases ht : t._is_free = true
    · refine ⟨0, t, by simp, ht, ?_, ?_⟩
      · intro j dj hj; omega
      · simp [NewTask.scan, ht]
    · have h' : ∃ t ∈ ts, t._is_free = true := by
        obtain ⟨u, hu, hfree⟩ := h
        rcases List.mem_cons.mp hu with rfl | hu
        · exact absurd hfree ht
        · exact ⟨u, hu, hfree⟩
      obtain ⟨i, dt, hget, hfree, hlow, hscan⟩ := ih h'
      refine ⟨i + 1, dt, by simpa using hget, hfree, ?_, ?_⟩
      · intro j dj hj hgj
        cases j with
        | zero =>
          simp at hgj
          subst hgj
          simpa using ht
        | succ j => exact hlow j dj (by omega) (by simpa using hgj)
      · simp [NewTask.scan, ht, hscan]

theorem NewTask_all_busy (p : DecoderPool) (c : Int)
    (h : ∀ dt ∈ p._decoder_threads, dt._is_free = false) :
    (NewTask p c)._decoder_threads = p._decoder_threads ∧
      (NewTask p c).closed = p.closed ++ [c] := by
  have hs : NewTask.scan c p._decoder_threads = none := (scan_none_iff c _).mpr h
  simp [NewTask, hs]

theorem scan_mem (c : Int) (ts rs : List DecoderThread)
    (h : NewTask.scan c ts = some rs) :
    ∀ dt ∈ rs, dt ∈ ts ∨ dt = { _client_socket := c, _is_free := false } := by
  induction ts generalizing rs with
  | nil => simp [NewTask.scan] at h
  | cons t ts ih =>
    by_cases ht : t._is_free = true
    · simp [NewTask.scan, ht] at h
      subst h
      intro dt hdt
      rcases List.mem_cons.mp hdt with rfl | hdt
      · exact Or.inr rfl
      · exact Or.inl (List.mem_cons_of_mem _ hdt)
    · simp [NewTask.scan, ht] at h
      obtain ⟨r, hr, rfl⟩ := h
      intro dt hdt
      rcases List.mem_cons.mp hdt with rfl | hdt
      · exact Or.inl (List.mem_cons_self _ _)
      · rcases ih r hr dt hdt with h1 | h1
        · exact Or.inl (List.mem_cons_of_mem _ h1)
        · exact Or.inr h1

theorem scan_after_busy (c : Int) (bs rest : List DecoderThread) (f : DecoderThread)
    (hb : ∀ t ∈ bs, t._is_free = false) (hf : f._is_free = true) :
    NewTask.scan c (bs ++ f :: rest) =
      some (bs ++ { _client_socket := c, _is_free := false } :: rest) := by
  induction bs with
  | nil => simp [NewTask.scan, hf]
  | cons b bs ih =>
    have hb0 : b._is_free = false := hb b (List.mem_cons_self _ _)
    have hbs : ∀ t ∈ bs, t._is_free = false :=
      fun t ht => hb t (List.mem_cons_of_mem _ ht)
    simp [NewTask.scan, hb0, ih hbs]

/-- The pool after dispatching the connections `cs` to a pool whose first
workers `bs` are busy and whose other `m` workers are free. -/
theorem foldl_NewTask_fill (cs : List Int) (bs : List DecoderThread) (m : Nat)
    (cl : List Int) (hb : ∀ t ∈ bs, t._is_free = false) (hm : cs.length ≤ m) :
    cs.foldl NewTask
        { _decoder_threads :=
            bs ++ List.replicate m { _client_socket := -1, _is_free := true }
          closed := cl } =
      { _decoder_threads :=
          bs ++ cs.map (fun s => { _client_socket := s, _is_free := false }) ++
            List.replicate (m - cs.length) { _client_socket := -1, _is_free := true }
        closed := cl } := by
  induction cs generalizing bs m with
  | nil => simp
  | cons c cs ih =>
    obtain ⟨k, rfl⟩ : ∃ k, m = k + 1 := ⟨m - 1, by simp at hm; omega⟩
    have hstep : NewTask
        { _decoder_threads :=
            bs ++ List.replicate (k + 1) { _client_socket := -1, _is_free := true }
          closed := cl } c =
        { _decoder_threads :=
            (bs ++ [{ _client_socket := c, _is_free := false }]) ++
              List.replicate k { _client_socket := -1, _is_free := true }
          closed := cl } := by
      simp only [NewTask, List.replicate_succ]
      rw [scan_after_busy c bs _ _ hb rfl]
      simp
    have hb' : ∀ t ∈ bs ++ [({ _client_socket := c, _is_free := false } : DecoderThread)],
        t._is_free = false := by
      intro t ht
      rcases List.mem_append.mp ht with h1 | h1
      · exact hb t h1
      · simp at h1; subst h1; rfl
    have hk : cs.length ≤ k := by simp at hm; omega
    have hrec := ih (bs ++ [{ _client_socket := c, _is_free := false }]) k hb' hk
    rw [List.foldl_cons, hstep, hrec]
    simp

theorem connIffBusy_Run (n : Nat) : ConnIffBusy (Run n) := by
  intro dt hdt
  have := List.eq_of_mem_replicate hdt
  subst this
  simp

theorem connIffBusy_NewTask (p : DecoderPool) (c : Int) (hc : c ≠ -1)
    (h : ConnIffBusy p) : ConnIffBusy (NewTask p c) := by
  unfold NewTask
  cases hs : NewTask.scan c p._decoder_threads with
  | none => exact h
  | some rs =>
    intro dt hdt
    rcases scan_mem c _ rs hs dt hdt with h1 | h1
    · exact h dt h1
    · subst h1; simp [hc]

theorem connIffBusy_release (p : DecoderPool) (i : Nat) (h : ConnIffBusy p) :
    ConnIffBusy (ThreadProc_release p i) := by
  unfold ThreadProc_release
  cases hg : p._decoder_threads.get? i with
  | none => exact h
  | some d =>
    intro dt hdt
    rcases List.mem_or_eq_of_mem_set hdt with h1 | h1
    · exact h dt h1
    · subst h1; simp

/-- With descriptors other than `-1` only, a worker holds a connection exactly
when it is busy, in every reachable pool state. -/
theorem connIffBusy_of_valid_descriptors (n : Nat) (p : DecoderPool)
    (h : Reachable (fun c => c ≠ -1) n p) : ConnIffBusy p := by
  induction h with
  | run => exact connIffBusy_Run n
  | newTask p c _ hc ih => exact connIffBusy_NewTask p c hc ih
  | release p i dt _ _ _ ih => exact connIffBusy_release p i ih

/-! ## Claims about the pool -/

/-- C1: when some worker is free, `NewTask c` changes exactly the free worker of
lowest index: it becomes busy with `_client_socket = c`, every other worker is
as before, and `c` is not closed. -/
theorem C1_NewTask_binds_lowest_free (p : DecoderPool) (c : Int)
    (h : ∃ dt ∈ p._decoder_threads, dt._is_free = true) :
    ∃ i dt, p._decoder_threads.get? i = some dt ∧ dt._is_free = true ∧
      (∀ j dj, j < i → p._decoder_threads.get? j = some dj → dj._is_free = false) ∧
      (NewTask p c)._decoder_threads.get? i =
        some { _client_socket := c, _is_free := false } ∧
      (∀ j, j ≠ i → (NewTask p c)._decoder_threads.get? j = p._decoder_threads.get? j) ∧
      (NewTask p c)._decoder_threads.length = p._decoder_threads.length ∧
      (NewTask p c).closed = p.closed := by
  obtain ⟨i, dt, hget, hfree, hlow, hscan⟩ := scan_first_free c p._decoder_threads h
  have hi : i < p._decoder_threads.length := by
    rcases Nat.lt_or_ge i p._decoder_threads.length with hlt | hge
    · exact hlt
    · rw [List.get?_eq_none.mpr hge] at hget; cases hget
  refine ⟨i, dt, hget, hfree, hlow, ?_, ?_, ?_, ?_⟩
  · simp [NewTask, hscan, List.getElem?_set, hi]
  · intro j hj
    simp [NewTask, hscan, List.getElem?_set, Ne.symm hj]
  · simp [NewTask, hscan]
  · simp [NewTask, hscan]

/-- A pool with a busy worker first and two free ones: the connection goes to
worker 1. -/
theorem C1_NewTask_binds_lowest_free_witness :
    ∃ i dt,
      (([⟨7, false⟩, ⟨-1, true⟩, ⟨-1, true⟩] : List DecoderThread).get? i = some dt) ∧
      dt._is_free = true ∧
      (∀ j dj, j < i →
        ([⟨7, false⟩, ⟨-1, true⟩, ⟨-1, true⟩] : List DecoderThread).get? j = some dj →
        dj._is_free = false) ∧
      (NewTask ⟨[⟨7, false⟩, ⟨-1, true⟩, ⟨-1, true⟩], []⟩ 9)._decoder_threads.get? i =
        some { _client_socket := 9, _is_free := false } ∧
      (∀ j, j ≠ i →
        (NewTask ⟨[⟨7, false⟩, ⟨-1, true⟩, ⟨-1, true⟩], []⟩ 9)._decoder_threads.get? j =
          ([⟨7, false⟩, ⟨-1, true⟩, ⟨-1, true⟩] : List DecoderThread).get? j) ∧
      (NewTask ⟨[⟨7, false⟩, ⟨-1, true⟩, ⟨-1, true⟩], []⟩ 9)._decoder_threads.length = 3 ∧
      (NewTask ⟨[⟨7, false⟩, ⟨-1, true⟩, ⟨-1, true⟩], []⟩ 9).closed = [] :=
  C1_NewTask_binds_lowest_free ⟨[⟨7, false⟩, ⟨-1, true⟩, ⟨-1, true⟩], []⟩ 9
    ⟨⟨-1, true⟩, by decide, rfl⟩

/-- C2: when every worker is busy, `NewTask c` closes `c` and leaves every
worker as it was. -/
theorem C2_NewTask_rejects_when_all_busy (p : DecoderPool) (c : Int)
    (h : ∀ dt ∈ p._decoder_threads, dt._is_free = false) :
    (NewTask p c)._decoder_threads = p._decoder_threads ∧
      (NewTask p c).closed = p.closed ++ [c] :=
  NewTask_all_busy p c h

/-- Two busy workers: the third connection is closed. -/
theorem C2_NewTask_rejects_when_all_busy_witness :
    (NewTask ⟨[⟨4, false⟩, ⟨5, false⟩], []⟩ 6)._decoder_threads =
        [⟨4, false⟩, ⟨5, false⟩] ∧
      (NewTask ⟨[⟨4, false⟩, ⟨5, false⟩], []⟩ 6).closed = [] ++ [6] :=
  C2_NewTask_rejects_when_all_busy ⟨[⟨4, false⟩, ⟨5, false⟩], []⟩ 6 (by decide)

/-- C3: from the pool built by `Run n`, `n ≥ 1`, the first `k ≤ n` of `n`
dispatches bind their connections to workers `0 .. k-1` in order and close
nothing, so after all `n` every worker is busy with its own connection; one
more dispatch is rejected: its connection is closed and no worker changes. -/
theorem C3_fill_then_reject (n : Nat) (hn : 1 ≤ n) (cs : List Int)
    (hcs : cs.length = n) (c : Int) :
    (∀ k, k ≤ n →
      (cs.take k).foldl NewTask (Run n) =
        { _decoder_threads :=
            (cs.take k).map (fun s => { _client_socket := s, _is_free := false }) ++
              List.replicate (n - k) { _client_socket := -1, _is_free := true }
          closed := [] }) ∧
    (cs.foldl NewTask (Run n))._decoder_threads =
      cs.map (fun s => { _client_socket := s, _is_free := false }) ∧
    (∀ dt ∈ (cs.foldl NewTask (Run n))._decoder_threads, dt._is_free = false) ∧
    (cs.foldl NewTask (Run n)).closed = [] ∧
    (NewTask (cs.foldl NewTask (Run n)) c)._decoder_threads =
      (cs.foldl NewTask (Run n))._decoder_threads ∧
    (NewTask (cs.foldl NewTask (Run n)) c).closed = [c] := by
  have hn' : 0 < n := hn
  have key : ∀ k, k ≤ n →
      (cs.take k).foldl NewTask (Run n) =
        { _decoder_threads :=
            (cs.take k).map (fun s => { _client_socket := s, _is_free := false }) ++
              List.replicate (n - k) { _client_socket := -1, _is_free := true }
          closed := [] } := by
    intro k hk
    have hlen : (cs.take k).length = k := by simp [hcs, hk]
    have := foldl_NewTask_fill (cs.take k) [] n [] (by simp) (by omega)
    simpa [Run, hlen] using this
  have hall := key n le_rfl
  have htake : cs.take n = cs := by rw [← hcs]; exact List.take_length cs
  rw [htake] at hall
  have hbusy : ∀ dt ∈ (cs.foldl NewTask (Run n))._decoder_threads,
      dt._is_free = false := by
    rw [hall]
    intro dt hdt
    simp at hdt
    obtain ⟨s, _, rfl⟩ := hdt
    rfl
  have hrej := NewTask_all_busy (cs.foldl NewTask (Run n)) c hbusy
  refine ⟨key, ?_, hbusy, ?_, hrej.1, ?_⟩
  · rw [hall]; simp
  · rw [hall]
  · rw [hrej.2, hall]; simp

/-- Pool of two workers, connections 10 and 11, then 12. -/
theorem C3_fill_then_reject_witness :
    (∀ k, k ≤ 2 →
      (([10, 11] : List Int).take k).foldl NewTask (Run 2) =
        { _decoder_threads :=
            (([10, 11] : List Int).take k).map
                (fun s => { _client_socket := s, _is_free := false }) ++
              List.replicate (2 - k) { _client_socket := -1, _is_free := true }
          closed := [] }) ∧
    (([10, 11] : List Int).foldl NewTask (Run 2))._decoder_threads =
      ([10, 11] : List Int).map (fun s => { _client_socket := s, _is_free := false }) ∧
    (∀ dt ∈ (([10, 11] : List Int).foldl NewTask (Run 2))._decoder_threads,
      dt._is_free = false) ∧
    (([10, 11] : List Int).foldl NewTask (Run 2)).closed = [] ∧
    (NewTask (([10, 11] : List Int).foldl NewTask (Run 2)) 12)._decoder_threads =
      (([10, 11] : List Int).foldl NewTask (Run 2))._decoder_threads ∧
    (NewTask (([10, 11] : List Int).foldl NewTask (Run 2)) 12).closed = [12] :=
  C3_fill_then_reject 2 (by decide) [10, 11] rfl 12

/-- C4 (the code at the failing input): `accept(2)` fails once on a fresh pool
of one worker, `Accept` returns `-1` and `NewTask (-1)` marks worker 0 busy
with `_client_socket = -1`: a reachable state with a busy worker that holds no
connection. The worker's loop (line 535) never leaves its poll in that state. -/
theorem C4_busy_without_connection :
    Reachable (fun _ => True) 1 (NewTask (Run 1) (-1)) ∧
      (NewTask (Run 1) (-1))._decoder_threads =
        [{ _client_socket := -1, _is_free := false }] ∧
      (NewTask (Run 1) (-1)).closed = [] ∧
      ¬ ConnIffBusy (NewTask (Run 1) (-1)) := by
  refine ⟨Reachable.newTask _ _ Reachable.run trivial, rfl, rfl, ?_⟩
  intro h
  have := h { _client_socket := -1, _is_free := false } (by decide)
  simp at this

end DecoderPool

end KaldiAudioServer

/-! ## Output lemmas -/

namespace KaldiAudioServer

theorem linesOf_append (a b : List Event) : linesOf (a ++ b) = linesOf a ++ linesOf b := by
  induction a with
  | nil => rfl
  | cons e a ih => cases e <;> simp [linesOf, ih]

theorem linesOf_writeLines (F : FloatFmt) (ls : List Line) (rets : List Int) :
    linesOf (writeLines F ls rets).1 = ls := by
  induction ls generalizing rets with
  | nil => rfl
  | cons l ls ih => simp [writeLines, linesOf, ih]

theorem attempt_writeLines (F : FloatFmt) (ls : List Line) (rets : List Int) :
    (writeLines F ls rets).1.map Event.attempt = ls.map (fun l => Event.WriteLine l true) := by
  induction ls generalizing rets with
  | nil => rfl
  | cons l ls ih => simp [writeLines, Event.attempt, ih]

theorem writeLines_nil_rets (F : FloatFmt) (ls : List Line) :
    writeLines F ls [] = (ls.map (fun l => Event.WriteLine l true), []) := by
  induction ls with
  | nil => rfl
  | cons l ls ih => simp [writeLines, WriteLine, WriteLine.loop, ih]

theorem linesOf_attempt (log : List Event) :
    linesOf (log.map Event.attempt) = linesOf log := by
  induction log with
  | nil => rfl
  | cons e log ih => cases e <;> simp [linesOf, Event.attempt, ih]

theorem line_size_pos (line : String) : 0 < ((line ++ "\n").utf8ByteSize : Int) := by
  have h : (line ++ "\n").utf8ByteSize = line.utf8ByteSize + 1 := by
    cases line with
    | mk cs =>
      have e : (String.mk cs ++ "\n") = String.mk (cs ++ [Char.ofNat 10]) := rfl
      rw [e]
      simp [String.utf8Len_append]
      rfl
  rw [h]
  push_cast
  have := Int.ofNat_nonneg line.utf8ByteSize
  omega

/-- A `write(2)` that returns `≤ 0` while bytes are left ends the loop of
`WriteLine` with `false`. -/
theorem WriteLine_loop_fails (to_write r : Int) (rest : List Int) (hpos : 0 < to_write)
    (hr : r ≤ 0) : WriteLine.loop to_write (r :: rest) = (false, rest) := by
  have hs : sysWrite r to_write ≤ 0 := by
    simp [sysWrite, hr]
  simp only [WriteLine.loop]
  rw [if_pos hpos, if_pos hs]

/-- A `write(2)` that returns `≤ 0` makes `WriteLine` return `false` at once. -/
theorem WriteLine_fails (line : String) (r : Int) (rest : List Int) (hr : r ≤ 0) :
    WriteLine (r :: rest) line = (false, rest) := by
  have hpos := line_size_pos line
  have hs : sysWrite r ((line ++ "\n").utf8ByteSize : Int) ≤ 0 := by
    simp [sysWrite, hr]
  simp only [WriteLine, WriteLine.loop]
  rw [if_pos hpos, if_pos hs]

theorem allWritten_append (a b : List Event) (ha : allWritten a) (hb : allWritten b) :
    allWritten (a ++ b) := by
  intro line ok h
  rcases List.mem_append.mp h with h | h
  · exact ha line ok h
  · exact hb line ok h

theorem WriteLine_loop_ok (n : Int) (rets : List Int) (h : ∀ r ∈ rets, 0 < r) :
    (WriteLine.loop n rets).1 = true ∧ ∀ r ∈ (WriteLine.loop n rets).2, 0 < r := by
  induction rets generalizing n with
  | nil => simp [WriteLine.loop]
  | cons r rets ih =>
    have hr : 0 < r := h r (List.mem_cons_self _ _)
    have hrest : ∀ x ∈ rets, 0 < x := fun x hx => h x (List.mem_cons_of_mem _ hx)
    simp only [WriteLine.loop]
    split
    · rename_i hn
      have hs : ¬ sysWrite r n ≤ 0 := by
        unfold sysWrite
        rw [if_neg (not_le.mpr hr)]
        exact not_le.mpr (lt_min hr hn)
      rw [if_neg hs]
      exact ih _ hrest
    · exact ⟨rfl, h⟩

theorem writeLines_ok (F : FloatFmt) (ls : List Line) (rets : List Int)
    (h : ∀ r ∈ rets, 0 < r) :
    allWritten (writeLines F ls rets).1 ∧ ∀ r ∈ (writeLines F ls rets).2, 0 < r := by
  induction ls generalizing rets with
  | nil => exact ⟨fun _ _ hm => by simp [writeLines] at hm, h⟩
  | cons l ls ih =>
    have hw := WriteLine_loop_ok (((l.render F) ++ "\n").utf8ByteSize : Int) rets h
    have hrec := ih (WriteLine rets (l.render F)).2 hw.2
    refine ⟨?_, hrec.2⟩
    intro line ok hm
    simp only [writeLines] at hm
    rcases List.mem_cons.mp hm with heq | hm
    · injection heq with _ hok
      rw [hok]
      exact hw.1
    · exact hrec.1 line ok hm

theorem partial_lines (word_syms : Option (Int → String)) (lat : Lattice) (tot : Int) :
    ∃ ps : List String,
      GetDiagnosticsAndPrintOutput false word_syms lat tot = ps.map Line.PARTIAL := by
  cases word_syms with
  | none => exact ⟨[], by simp [GetDiagnosticsAndPrintOutput]⟩
  | some find =>
    by_cases h : partialResult find lat.linear = ""
    · exact ⟨[], by simp [GetDiagnosticsAndPrintOutput, h]⟩
    · exact ⟨[partialResult find lat.linear], by simp [GetDiagnosticsAndPrintOutput, h]⟩

/-! ## Session lemmas -/

section
variable {R : Type} (cfg : Config) (rec : Recognizer R)

theorem readStep_samp_offset (s : Session R) (rd : ReadResult) :
    (readStep cfg rec s rd).samp_offset =
      s.samp_offset + (if rd.ans then packet_samples cfg else 0) := by
  unfold readStep
  split <;> simp

theorem readStep_samp_mark (s : Session R) (rd : ReadResult) :
    Session.samp_partial (readStep cfg rec s rd) = s.samp_partial := by
  unfold readStep
  split <;> rfl

theorem decodeStep_eq (s : Session R) (rets : List Int) :
    decodeStep cfg rec s rets =
      if s.samp_offset - s.samp_partial > 4800 ∧
          rec.NumFramesDecoded (rec.AdvanceDecoding s.decoder) > 0 then
        ({ decoder := rec.AdvanceDecoding s.decoder, samp_offset := s.samp_offset,
           samp_partial := s.samp_offset, samp_process := s.samp_offset },
          Event.AdvanceDecoding :: Event.GetBestPath false ::
            (writeLines cfg.fmt
              (GetDiagnosticsAndPrintOutput false cfg.word_syms
                (rec.GetBestPath (rec.AdvanceDecoding s.decoder) false) s.samp_offset)
              rets).1,
          (writeLines cfg.fmt
              (GetDiagnosticsAndPrintOutput false cfg.word_syms
                (rec.GetBestPath (rec.AdvanceDecoding s.decoder) false) s.samp_offset)
              rets).2)
      else
        ({ decoder := rec.AdvanceDecoding s.decoder, samp_offset := s.samp_offset,
           samp_partial := s.samp_partial, samp_process := s.samp_offset },
          [Event.AdvanceDecoding], rets) := rfl

theorem decodeStep_samp_offset (s : Session R) (rets : List Int) :
    (decodeStep cfg rec s rets).1.samp_offset = s.samp_offset := by
  rw [decodeStep_eq]
  split <;> rfl

theorem decodeStep_lines (s : Session R) (rets : List Int) :
    ∃ ps : List String, linesOf (decodeStep cfg rec s rets).2.1 = ps.map Line.PARTIAL := by
  rw [decodeStep_eq]
  split
  · obtain ⟨ps, hps⟩ := partial_lines cfg.word_syms
      (rec.GetBestPath (rec.AdvanceDecoding s.decoder) false) s.samp_offset
    exact ⟨ps, by simp [linesOf, linesOf_writeLines, hps]⟩
  · exact ⟨[], by simp [linesOf]⟩

/-- Below the 0.3 s gap the decode-advance step asks for no hypothesis. -/
theorem decodeStep_quiet (s : Session R) (rets : List Int)
    (h : s.samp_offset - s.samp_partial ≤ 4800) :
    decodeStep cfg rec s rets =
      ({ decoder := rec.AdvanceDecoding s.decoder, samp_offset := s.samp_offset,
         samp_partial := s.samp_partial, samp_process := s.samp_offset },
        [Event.AdvanceDecoding], rets) := by
  rw [decodeStep_eq, if_neg]
  intro hc
  exact absurd hc.1 (by simpa using h)

/-- The decode-advance step does not depend on the results of the writes,
except in the recorded results themselves. -/
theorem decodeStep_rets (s : Session R) (rets1 rets2 : List Int) :
    (decodeStep cfg rec s rets1).1 = (decodeStep cfg rec s rets2).1 ∧
      (decodeStep cfg rec s rets1).2.1.map Event.attempt =
        (decodeStep cfg rec s rets2).2.1.map Event.attempt := by
  rw [decodeStep_eq, decodeStep_eq]
  split
  · simp [attempt_writeLines]
  · simp

theorem clientLoop_nil (s : Session R) (rets : List Int) :
    clientLoop cfg rec [] s rets =
      ((decodeStep cfg rec (readStep cfg rec s (endOfStream cfg)) rets).1,
        (decodeStep cfg rec (readStep cfg rec s (endOfStream cfg)) rets).2.1,
        (decodeStep cfg rec (readStep cfg rec s (endOfStream cfg)) rets).2.2, []) := rfl

theorem clientLoop_cons (rd : ReadResult) (rest : List ReadResult) (s : Session R)
    (rets : List Int) :
    clientLoop cfg rec (rd :: rest) s rets =
      if (readStep cfg rec s rd).samp_offset - (readStep cfg rec s rd).samp_process
          < cfg.chunk_length ∧ rd.ans = true then
        clientLoop cfg rec rest (readStep cfg rec s rd) rets
      else if rd.ans = true then
        ((clientLoop cfg rec rest (decodeStep cfg rec (readStep cfg rec s rd) rets).1
            (decodeStep cfg rec (readStep cfg rec s rd) rets).2.2).1,
          (decodeStep cfg rec (readStep cfg rec s rd) rets).2.1 ++
            (clientLoop cfg rec rest (decodeStep cfg rec (readStep cfg rec s rd) rets).1
              (decodeStep cfg rec (readStep cfg rec s rd) rets).2.2).2.1,
          (clientLoop cfg rec rest (decodeStep cfg rec (readStep cfg rec s rd) rets).1
            (decodeStep cfg rec (readStep cfg rec s rd) rets).2.2).2.2)
      else
        ((decodeStep cfg rec (readStep cfg rec s rd) rets).1,
          (decodeStep cfg rec (readStep cfg rec s rd) rets).2.1,
          (decodeStep cfg rec (readStep cfg rec s rd) rets).2.2, rest) := rfl

/-- A terminating read (the peer has closed, or `Read` returned `false`) ends
the client loop after one decode-advance step. -/
theorem clientLoop_last (tail : List ReadResult) (s : Session R) (rets : List Int)
    (h : ∀ rd ∈ tail.head?, rd.ans = false) :
    clientLoop cfg rec tail s rets =
      ((decodeStep cfg rec (readStep cfg rec s (tail.headD (endOfStream cfg))) rets).1,
        (decodeStep cfg rec (readStep cfg rec s (tail.headD (endOfStream cfg))) rets).2.1,
        (decodeStep cfg rec (readStep cfg rec s (tail.headD (endOfStream cfg))) rets).2.2,
        tail.tail) := by
  cases tail with
  | nil => rfl
  | cons rd rest =>
    have hrd : rd.ans = false := h rd (by simp)
    rw [clientLoop_cons]
    simp [hrd]

theorem readStep_last (tail : List ReadResult) (s : Session R)
    (h : ∀ rd ∈ tail.head?, rd.ans = false) :
    (readStep cfg rec s (tail.headD (endOfStream cfg))).samp_offset = s.samp_offset ∧
      Session.samp_partial (readStep cfg rec s (tail.headD (endOfStream cfg))) = s.samp_partial := by
  have hans : (tail.headD (endOfStream cfg)).ans = false := by
    cases tail with
    | nil => rfl
    | cons rd rest => exact h rd (by simp)
  rw [readStep_samp_offset, readStep_samp_mark, hans]
  simp

/-- The client loop over full reads followed by a terminating read: the
samples counted, the lines written (partial results only) and what is left of
the stream. -/
theorem clientLoop_stream (fulls tail : List ReadResult) (s : Session R) (rets : List Int)
    (hf : ∀ rd ∈ fulls, rd.ans = true) (ht : ∀ rd ∈ tail.head?, rd.ans = false) :
    (clientLoop cfg rec (fulls ++ tail) s rets).1.samp_offset =
        s.samp_offset + fulls.length * packet_samples cfg ∧
      (∃ ps : List String,
        linesOf (clientLoop cfg rec (fulls ++ tail) s rets).2.1 = ps.map Line.PARTIAL) ∧
      (clientLoop cfg rec (fulls ++ tail) s rets).2.2.2 = tail.tail := by
  induction fulls generalizing s rets with
  | nil =>
    rw [List.nil_append, clientLoop_last cfg rec tail s rets ht]
    refine ⟨?_, decodeStep_lines cfg rec _ rets, rfl⟩
    simp only []
    rw [decodeStep_samp_offset, (readStep_last cfg rec tail s ht).1]
    simp
  | cons rd fulls ih =>
    have hrd : rd.ans = true := hf rd (List.mem_cons_self _ _)
    have hf' : ∀ r ∈ fulls, r.ans = true := fun r hr => hf r (List.mem_cons_of_mem _ hr)
    have hoff : (readStep cfg rec s rd).samp_offset = s.samp_offset + packet_samples cfg := by
      rw [readStep_samp_offset]; simp [hrd]
    rw [List.cons_append, clientLoop_cons]
    split
    · obtain ⟨h1, h2, h3⟩ := ih (readStep cfg rec s rd) rets hf'
      refine ⟨?_, h2, h3⟩
      rw [h1, hoff, List.length_cons]; push_cast; ring
    · simp only [hrd, if_true]
      obtain ⟨h1, ⟨ps2, h2⟩, h3⟩ := ih (decodeStep cfg rec (readStep cfg rec s rd) rets).1
        (decodeStep cfg rec (readStep cfg rec s rd) rets).2.2 hf'
      obtain ⟨ps1, hps1⟩ := decodeStep_lines cfg rec (readStep cfg rec s rd) rets
      refine ⟨?_, ⟨ps1 ++ ps2, ?_⟩, h3⟩
      · rw [h1, decodeStep_samp_offset, hoff, List.length_cons]; push_cast; ring
      · rw [linesOf_append, hps1, h2, List.map_append]

/-- A stream whose first read is already the terminating one: no sample is
counted and the only event is the decode-advance step of that round. -/
theorem clientLoop_empty_stream (reads : List ReadResult) (rets : List Int)
    (h : ∀ rd ∈ reads.head?, rd.ans = false) :
    clientLoop cfg rec reads (Session.start rec) rets =
      ({ decoder :=
            rec.AdvanceDecoding
              (rec.AcceptWaveform rec.init (reads.headD (endOfStream cfg)).wav_data)
         samp_offset := 0, samp_partial := 0, samp_process := 0 },
        [Event.AdvanceDecoding], rets, reads.tail) := by
  have hans : (reads.headD (endOfStream cfg)).ans = false := by
    cases reads with
    | nil => rfl
    | cons rd rest => exact h rd (by simp)
  rw [clientLoop_last cfg rec reads _ rets h, decodeStep_quiet]
  · generalize reads.headD (endOfStream cfg) = rd at hans
    simp [readStep, hans, Session.start]
  · generalize reads.headD (endOfStream cfg) = rd at hans
    simp [readStep, hans, Session.start]

theorem utteranceLoop_empty_stream (fuel : Nat) (reads : List ReadResult) (rets : List Int)
    (h : ∀ rd ∈ reads.head?, rd.ans = false) :
    utteranceLoop cfg rec (fuel + 1) reads rets = some [Event.AdvanceDecoding] := by
  simp [utteranceLoop, clientLoop_empty_stream cfg rec reads rets h]

theorem utteranceLoop_succ (fuel : Nat) (reads : List ReadResult) (rets : List Int) :
    utteranceLoop cfg rec (fuel + 1) reads rets =
      if (clientLoop cfg rec reads (Session.start rec) rets).1.samp_offset = 0 then
        some (clientLoop cfg rec reads (Session.start rec) rets).2.1
      else
        (utteranceLoop cfg rec fuel (clientLoop cfg rec reads (Session.start rec) rets).2.2.2
          (finalDecode cfg rec (clientLoop cfg rec reads (Session.start rec) rets).1
            (clientLoop cfg rec reads (Session.start rec) rets).2.2.1).2).map
          (fun later =>
            (clientLoop cfg rec reads (Session.start rec) rets).2.1 ++
              (finalDecode cfg rec (clientLoop cfg rec reads (Session.start rec) rets).1
                (clientLoop cfg rec reads (Session.start rec) rets).2.2.1).1 ++ later) := rfl

theorem finalDecode_lines (s : Session R) (rets : List Int) :
    linesOf (finalDecode cfg rec s rets).1 =
      GetDiagnosticsAndPrintOutput true cfg.word_syms
          (rec.GetBestPath
            (rec.FinalizeDecoding (rec.AdvanceDecoding (rec.InputFinished s.decoder))) true)
          s.samp_offset ++ [Line.DONE] := by
  simp [finalDecode, linesOf, linesOf_writeLines, GetDiagnosticsAndPrintOutput]

/-- Up to 0.3 s of audio in all, the client loop asks for no hypothesis:
nothing is handed to `WriteLine`. -/
theorem clientLoop_quiet (fulls tail : List ReadResult) (s : Session R) (rets : List Int)
    (hf : ∀ rd ∈ fulls, rd.ans = true) (ht : ∀ rd ∈ tail.head?, rd.ans = false)
    (hps : 0 ≤ packet_samples cfg) (hmark : s.samp_partial = 0)
    (hgap : s.samp_offset + fulls.length * packet_samples cfg ≤ 4800) :
    linesOf (clientLoop cfg rec (fulls ++ tail) s rets).2.1 = [] := by
  induction fulls generalizing s rets with
  | nil =>
    have hlast := readStep_last cfg rec tail s ht
    rw [List.nil_append, clientLoop_last cfg rec tail s rets ht, decodeStep_quiet]
    · rfl
    · rw [hlast.1, hlast.2, hmark]
      simp at hgap
      omega
  | cons rd fulls ih =>
    have hrd : rd.ans = true := hf rd (List.mem_cons_self _ _)
    have hf' : ∀ r ∈ fulls, r.ans = true := fun r hr => hf r (List.mem_cons_of_mem _ hr)
    have hoff : (readStep cfg rec s rd).samp_offset = s.samp_offset + packet_samples cfg := by
      rw [readStep_samp_offset]; simp [hrd]
    have hmk : Session.samp_partial (readStep cfg rec s rd) = 0 := by
      rw [readStep_samp_mark]; exact hmark
    have hmul : 0 ≤ (fulls.length : Int) * packet_samples cfg :=
      mul_nonneg (Int.ofNat_nonneg _) hps
    have hgap' : (readStep cfg rec s rd).samp_offset + fulls.length * packet_samples cfg
        ≤ 4800 := by
      rw [hoff]
      rw [List.length_cons] at hgap
      push_cast at hgap
      linarith
    rw [List.cons_append, clientLoop_cons]
    split
    · exact ih (readStep cfg rec s rd) rets hf' hmk hgap'
    · simp only [hrd, if_true]
      have hq := decodeStep_quiet cfg rec (readStep cfg rec s rd) rets
        (by rw [hmk]; linarith)
      have hrec := ih
        { decoder := rec.AdvanceDecoding (readStep cfg rec s rd).decoder
          samp_offset := (readStep cfg rec s rd).samp_offset
          samp_partial := Session.samp_partial (readStep cfg rec s rd)
          samp_process := (readStep cfg rec s rd).samp_offset } rets hf' hmk hgap'
      rw [hq, linesOf_append]
      show linesOf [Event.AdvanceDecoding] ++
        linesOf (clientLoop cfg rec (fulls ++ tail) _ rets).2.1 = []
      rw [hrec]
      rfl

/-- The client loop does not depend on the results of the writes, except in
the recorded results themselves. -/
theorem clientLoop_rets (reads : List ReadResult) (s : Session R) (rets1 rets2 : List Int) :
    (clientLoop cfg rec reads s rets1).1 = (clientLoop cfg rec reads s rets2).1 ∧
      (clientLoop cfg rec reads s rets1).2.1.map Event.attempt =
        (clientLoop cfg rec reads s rets2).2.1.map Event.attempt ∧
      (clientLoop cfg rec reads s rets1).2.2.2 = (clientLoop cfg rec reads s rets2).2.2.2 := by
  induction reads generalizing s rets1 rets2 with
  | nil =>
    rw [clientLoop_nil, clientLoop_nil]
    have h := decodeStep_rets cfg rec (readStep cfg rec s (endOfStream cfg)) rets1 rets2
    exact ⟨h.1, h.2, rfl⟩
  | cons rd rest ih =>
    have h := decodeStep_rets cfg rec (readStep cfg rec s rd) rets1 rets2
    rw [clientLoop_cons, clientLoop_cons]
    split
    · exact ih _ rets1 rets2
    · split
      · have h' := ih (decodeStep cfg rec (readStep cfg rec s rd) rets1).1
          (decodeStep cfg rec (readStep cfg rec s rd) rets1).2.2
          (decodeStep cfg rec (readStep cfg rec s rd) rets2).2.2
        rw [← h.1]
        refine ⟨h'.1, ?_, h'.2.2⟩
        simp only [List.map_append]
        rw [h.2, h'.2.1]
      · exact ⟨h.1, h.2, rfl⟩

/-- Every round of the client loop consumes a `Read` result while there is one. -/
theorem clientLoop_rest_length (reads : List ReadResult) (s : Session R) (rets : List Int) :
    (clientLoop cfg rec reads s rets).2.2.2.length ≤ reads.length - 1 := by
  induction reads generalizing s rets with
  | nil => simp [clientLoop_nil]
  | cons rd rest ih =>
    rw [clientLoop_cons]
    split
    · have := ih (readStep cfg rec s rd) rets
      simp
      omega
    · split
      · have := ih (decodeStep cfg rec (readStep cfg rec s rd) rets).1
          (decodeStep cfg rec (readStep cfg rec s rd) rets).2.2
        simp
        omega
      · simp

theorem finalDecode_rets (s : Session R) (rets1 rets2 : List Int) :
    (finalDecode cfg rec s rets1).1.map Event.attempt =
      (finalDecode cfg rec s rets2).1.map Event.attempt := by
  simp [finalDecode, attempt_writeLines, Event.attempt]

/-- The utterance loop reaches the `break` of line 598 within
`reads.length + 1` rounds. -/
theorem utteranceLoop_total (fuel : Nat) (reads : List ReadResult) (rets : List Int)
    (h : reads.length < fuel) : ∃ log, utteranceLoop cfg rec fuel reads rets = some log := by
  induction fuel generalizing reads rets with
  | zero => omega
  | succ fuel ih =>
    cases reads with
    | nil => exact ⟨_, utteranceLoop_empty_stream cfg rec fuel [] rets (by simp)⟩
    | cons rd rest =>
      rw [utteranceLoop_succ]
      split
      · exact ⟨_, rfl⟩
      · have hlen := clientLoop_rest_length cfg rec (rd :: rest) (Session.start rec) rets
        obtain ⟨later, hlater⟩ :=
          ih (clientLoop cfg rec (rd :: rest) (Session.start rec) rets).2.2.2
            (finalDecode cfg rec (clientLoop cfg rec (rd :: rest) (Session.start rec) rets).1
              (clientLoop cfg rec (rd :: rest) (Session.start rec) rets).2.2.1).2
            (by simp at hlen h; omega)
        rw [hlater]
        exact ⟨_, rfl⟩

/-- The utterance loop does not depend on the results of the writes, except in
the recorded results themselves. -/
theorem utteranceLoop_rets (fuel : Nat) (reads : List ReadResult) (rets1 rets2 : List Int) :
    (utteranceLoop cfg rec fuel reads rets1).map (List.map Event.attempt) =
      (utteranceLoop cfg rec fuel reads rets2).map (List.map Event.attempt) := by
  induction fuel generalizing reads rets1 rets2 with
  | zero => rfl
  | succ fuel ih =>
    obtain ⟨h1, h2, h3⟩ := clientLoop_rets cfg rec reads (Session.start rec) rets1 rets2
    rw [utteranceLoop_succ, utteranceLoop_succ, ← h1, ← h3]
    split
    · simp [h2]
    · have hf := finalDecode_rets cfg rec
        (clientLoop cfg rec reads (Session.start rec) rets1).1
        (clientLoop cfg rec reads (Session.start rec) rets1).2.2.1
        (clientLoop cfg rec reads (Session.start rec) rets2).2.2.1
      have hi := ih (clientLoop cfg rec reads (Session.start rec) rets1).2.2.2
        (finalDecode cfg rec (clientLoop cfg rec reads (Session.start rec) rets1).1
          (clientLoop cfg rec reads (Session.start rec) rets1).2.2.1).2
        (finalDecode cfg rec (clientLoop cfg rec reads (Session.start rec) rets1).1
          (clientLoop cfg rec reads (Session.start rec) rets2).2.2.1).2
      simp only [Option.map_map]
      cases hu1 : utteranceLoop cfg rec fuel
          (clientLoop cfg rec reads (Session.start rec) rets1).2.2.2
          (finalDecode cfg rec (clientLoop cfg rec reads (Session.start rec) rets1).1
            (clientLoop cfg rec reads (Session.start rec) rets1).2.2.1).2 <;>
        cases hu2 : utteranceLoop cfg rec fuel
          (clientLoop cfg rec reads (Session.start rec) rets1).2.2.2
          (finalDecode cfg rec (clientLoop cfg rec reads (Session.start rec) rets1).1
            (clientLoop cfg rec reads (Session.start rec) rets2).2.2.1).2 <;>
        rw [hu1, hu2] at hi <;> simp at hi ⊢
      simp [h2, hf, hi]

theorem decodeStep_ok (s : Session R) (rets : List Int) (h : ∀ r ∈ rets, 0 < r) :
    allWritten (decodeStep cfg rec s rets).2.1 ∧
      ∀ r ∈ (decodeStep cfg rec s rets).2.2, 0 < r := by
  rw [decodeStep_eq]
  split
  · have hw := writeLines_ok cfg.fmt
      (GetDiagnosticsAndPrintOutput false cfg.word_syms
        (rec.GetBestPath (rec.AdvanceDecoding s.decoder) false) s.samp_offset) rets h
    refine ⟨?_, hw.2⟩
    intro line ok hm
    simp only [List.mem_cons] at hm
    rcases hm with hm | hm | hm
    · cases hm
    · cases hm
    · exact hw.1 line ok hm
  · refine ⟨?_, h⟩
    intro line ok hm
    simp at hm

theorem clientLoop_ok (reads : List ReadResult) (s : Session R) (rets : List Int)
    (h : ∀ r ∈ rets, 0 < r) :
    allWritten (clientLoop cfg rec reads s rets).2.1 ∧
      ∀ r ∈ (clientLoop cfg rec reads s rets).2.2.1, 0 < r := by
  induction reads generalizing s rets with
  | nil =>
    rw [clientLoop_nil]
    exact decodeStep_ok cfg rec _ rets h
  | cons rd rest ih =>
    have hd := decodeStep_ok cfg rec (readStep cfg rec s rd) rets h
    rw [clientLoop_cons]
    split
    · exact ih _ rets h
    · split
      · have hrec := ih (decodeStep cfg rec (readStep cfg rec s rd) rets).1
          (decodeStep cfg rec (readStep cfg rec s rd) rets).2.2 hd.2
        exact ⟨allWritten_append _ _ hd.1 hrec.1, hrec.2⟩
      · exact hd

theorem finalDecode_ok (s : Session R) (rets : List Int) (h : ∀ r ∈ rets, 0 < r) :
    allWritten (finalDecode cfg rec s rets).1 ∧
      ∀ r ∈ (finalDecode cfg rec s rets).2, 0 < r := by
  have hw := writeLines_ok cfg.fmt
    (GetDiagnosticsAndPrintOutput true cfg.word_syms
        (rec.GetBestPath
          (rec.FinalizeDecoding (rec.AdvanceDecoding (rec.InputFinished s.decoder))) true)
        s.samp_offset ++ [Line.DONE]) rets h
  refine ⟨?_, hw.2⟩
  intro line ok hm
  simp only [finalDecode, List.mem_cons] at hm
  rcases hm with hm | hm | hm | hm | hm
  · cases hm
  · cases hm
  · cases hm
  · cases hm
  · exact hw.1 line ok hm

/-- When no write fails, every line of the session goes out whole. -/
theorem utteranceLoop_ok (fuel : Nat) (reads : List ReadResult) (rets : List Int)
    (log : List Event) (h : ∀ r ∈ rets, 0 < r)
    (hrun : utteranceLoop cfg rec fuel reads rets = some log) : allWritten log := by
  induction fuel generalizing reads rets log with
  | zero => simp [utteranceLoop] at hrun
  | succ fuel ih =>
    have hc := clientLoop_ok cfg rec reads (Session.start rec) rets h
    have hfd := finalDecode_ok cfg rec
      (clientLoop cfg rec reads (Session.start rec) rets).1
      (clientLoop cfg rec reads (Session.start rec) rets).2.2.1 hc.2
    rw [utteranceLoop_succ] at hrun
    split at hrun
    · injection hrun with hlog
      rw [← hlog]
      exact hc.1
    · cases hu : utteranceLoop cfg rec fuel
          (clientLoop cfg rec reads (Session.start rec) rets).2.2.2
          (finalDecode cfg rec (clientLoop cfg rec reads (Session.start rec) rets).1
            (clientLoop cfg rec reads (Session.start rec) rets).2.2.1).2 with
      | none => rw [hu] at hrun; simp at hrun
      | some later =>
        rw [hu] at hrun
        simp only [Option.map_some'] at hrun
        injection hrun with hlog
        rw [← hlog]
        exact allWritten_append _ _ (allWritten_append _ _ hc.1 hfd.1) (ih _ _ later hfd.2 hu)

theorem readStep_samp_process (s : Session R) (rd : ReadResult) :
    (readStep cfg rec s rd).samp_process = s.samp_process := by
  unfold readStep
  split <;> rfl

/-- A decode-advance step hands at most one line to `WriteLine`, a `PARTIAL`
one, and none below the 0.3 s gap. -/
theorem decodeStep_lines_short (s : Session R) (rets : List Int) :
    ∃ ps : List String,
      linesOf (decodeStep cfg rec s rets).2.1 = ps.map Line.PARTIAL ∧ ps.length ≤ 1 ∧
      (s.samp_offset - s.samp_partial ≤ 4800 → ps = []) := by
  rw [decodeStep_eq]
  split
  · rename_i hc
    have hgt : ¬ s.samp_offset - s.samp_partial ≤ 4800 := not_le.mpr hc.1
    cases hw : cfg.word_syms with
    | none =>
      exact ⟨[], by simp [linesOf, linesOf_writeLines, GetDiagnosticsAndPrintOutput, hw],
        by simp, fun _ => rfl⟩
    | some find =>
      by_cases h : partialResult find
          (rec.GetBestPath (rec.AdvanceDecoding s.decoder) false).linear = ""
      · exact ⟨[], by simp [linesOf, linesOf_writeLines, GetDiagnosticsAndPrintOutput, hw, h],
          by simp, fun _ => rfl⟩
      · exact ⟨[partialResult find
            (rec.GetBestPath (rec.AdvanceDecoding s.decoder) false).linear],
          by simp [linesOf, linesOf_writeLines, GetDiagnosticsAndPrintOutput, hw, h],
          by simp, fun hle => absurd hle hgt⟩
  · exact ⟨[], by simp [linesOf], by simp, fun _ => rfl⟩

/-- While the samples not yet handed to the decode step stay below one chunk,
the client loop only reads: no decode-advance step, no event. -/
theorem clientLoop_one_chunk (fulls tail : List ReadResult) (s : Session R) (rets : List Int)
    (hf : ∀ rd ∈ fulls, rd.ans = true) (hps : 0 ≤ packet_samples cfg)
    (hb : s.samp_offset + fulls.length * packet_samples cfg - s.samp_process
      < cfg.chunk_length) :
    ∃ s' : Session R,
      clientLoop cfg rec (fulls ++ tail) s rets = clientLoop cfg rec tail s' rets ∧
      s'.samp_offset = s.samp_offset + fulls.length * packet_samples cfg ∧
      s'.samp_partial = s.samp_partial := by
  induction fulls generalizing s with
  | nil => exact ⟨s, rfl, by simp, rfl⟩
  | cons rd fulls ih =>
    have hrd : rd.ans = true := hf rd (List.mem_cons_self _ _)
    have hf' : ∀ r ∈ fulls, r.ans = true := fun r hr => hf r (List.mem_cons_of_mem _ hr)
    have hoff : (readStep cfg rec s rd).samp_offset = s.samp_offset + packet_samples cfg := by
      rw [readStep_samp_offset]; simp [hrd]
    have hproc := readStep_samp_process cfg rec s rd
    have hmk := readStep_samp_mark cfg rec s rd
    have hmul : 0 ≤ (fulls.length : Int) * packet_samples cfg :=
      mul_nonneg (Int.ofNat_nonneg _) hps
    rw [List.length_cons] at hb
    push_cast at hb
    have hcont : (readStep cfg rec s rd).samp_offset - (readStep cfg rec s rd).samp_process
        < cfg.chunk_length ∧ rd.ans = true := by
      refine ⟨?_, hrd⟩
      rw [hoff, hproc]
      linarith
    obtain ⟨s', h1, h2, h3⟩ := ih (readStep cfg rec s rd) hf'
      (by rw [hoff, hproc]; linarith)
    refine ⟨s', ?_, ?_, ?_⟩
    · rw [List.cons_append, clientLoop_cons, if_pos hcont]
      exact h1
    · rw [h2, hoff, List.length_cons]; push_cast; ring
    · rw [h3, hmk]

theorem packet_samples_nonneg (n : Nat) (h : 0 < (n : Int) * packet_samples cfg) :
    0 ≤ packet_samples cfg := by
  by_contra hneg
  have h1 : packet_samples cfg < 0 := not_le.mp hneg
  have h2 : (n : Int) * packet_samples cfg ≤ 0 :=
    Int.mul_nonpos_of_nonneg_of_nonpos (Int.ofNat_nonneg _) (le_of_lt h1)
  linarith

/-- With the whole input in one chunk, the client loop over a stream of counted
samples is one decode-advance step, made at the terminating read. -/
theorem clientLoop_whole_input (fulls tail : List ReadResult) (rets : List Int)
    (hf : ∀ rd ∈ fulls, rd.ans = true) (ht : ∀ rd ∈ tail.head?, rd.ans = false)
    (hps : 0 ≤ packet_samples cfg)
    (hb : (fulls.length : Int) * packet_samples cfg < cfg.chunk_length) :
    ∃ s' : Session R,
      s'.samp_offset = fulls.length * packet_samples cfg ∧ s'.samp_partial = 0 ∧
      clientLoop cfg rec (fulls ++ tail) (Session.start rec) rets =
        ((decodeStep cfg rec s' rets).1, (decodeStep cfg rec s' rets).2.1,
          (decodeStep cfg rec s' rets).2.2, tail.tail) := by
  obtain ⟨s1, h1, h2, h3⟩ := clientLoop_one_chunk cfg rec fulls tail (Session.start rec) rets
    hf hps (by
      rw [show (Session.start rec).samp_offset = 0 from rfl,
        show (Session.start rec).samp_process = 0 from rfl]
      linarith)
  have hlast := readStep_last cfg rec tail s1 ht
  refine ⟨readStep cfg rec s1 (tail.headD (endOfStream cfg)), ?_, ?_, ?_⟩
  · rw [hlast.1, h2, show (Session.start rec).samp_offset = 0 from rfl]
    ring
  · rw [hlast.2, h3]
    rfl
  · rw [h1, clientLoop_last cfg rec tail s1 rets ht]

/-- A stream of counted samples followed by end of stream: one utterance with
its final decode, then the empty round that ends the connection. -/
theorem session_of_stream (fulls tail : List ReadResult) (rets : List Int)
    (hpos : 0 < (fulls.length : Int) * packet_samples cfg)
    (hf : ∀ rd ∈ fulls, rd.ans = true) (ht : ∀ rd ∈ tail, rd.ans = false) :
    ThreadProc_session cfg rec (fulls ++ tail) rets =
      some ((clientLoop cfg rec (fulls ++ tail) (Session.start rec) rets).2.1 ++
        (finalDecode cfg rec (clientLoop cfg rec (fulls ++ tail) (Session.start rec) rets).1
          (clientLoop cfg rec (fulls ++ tail) (Session.start rec) rets).2.2.1).1 ++
        [Event.AdvanceDecoding]) := by
  have ht0 : ∀ rd ∈ tail.head?, rd.ans = false :=
    fun rd hrd => ht rd (List.mem_of_mem_head? hrd)
  have ht1 : ∀ rd ∈ tail.tail.head?, rd.ans = false :=
    fun rd hrd => ht rd (List.mem_of_mem_tail (List.mem_of_mem_head? hrd))
  obtain ⟨hoff, _, hrest⟩ :=
    clientLoop_stream cfg rec fulls tail (Session.start rec) rets hf ht0
  have hne0 : (clientLoop cfg rec (fulls ++ tail) (Session.start rec) rets).1.samp_offset ≠ 0 := by
    rw [hoff, show (Session.start rec).samp_offset = 0 from rfl]
    linarith
  have hfl : fulls ≠ [] := by
    rintro rfl
    simp at hpos
  obtain ⟨k, hk⟩ : ∃ k, (fulls ++ tail).length = k + 1 :=
    ⟨(fulls ++ tail).length - 1, by
      have := List.length_pos.mpr hfl
      simp
      omega⟩
  unfold ThreadProc_session
  rw [hk, utteranceLoop_succ, if_neg hne0, hrest,
    utteranceLoop_empty_stream cfg rec k tail.tail _ ht1]
  rfl

end

/-! ## Word lines -/

theorem words_num_foldl (words : List Int) (n : Int) :
    words.foldl (fun n w => if w ≠ 0 then n + 1 else n) n =
      n + ((words.filter (fun w => decide (w ≠ 0))).length : Int) := by
  induction words generalizing n with
  | nil => simp
  | cons w ws ih =>
    rw [List.foldl_cons, ih]
    by_cases h : w = 0
    · simp [List.filter_cons, h]
    · simp [List.filter_cons, h]; ring

theorem words_num_eq (words : List Int) :
    words_num words = ((words.filter (fun w => decide (w ≠ 0))).length : Int) := by
  unfold words_num
  rw [words_num_foldl]
  simp

theorem wordText_ne_empty (word_syms : Option (Int → String)) (w : Int) :
    wordText word_syms w ≠ "" := by
  unfold wordText
  split
  · decide
  · assumption

theorem wordLoop_entries (word_syms : Option (Int → String)) (times lengths : List Int)
    (i : Nat) (words : List Int) :
    ∃ ws : List (String × Int × Int),
      wordLoop word_syms times lengths i words = ws.map (fun e => Line.WORD e.1 e.2.1 e.2.2) ∧
      ws.length = (words.filter (fun w => decide (w ≠ 0))).length ∧
      ∀ e ∈ ws, e.1 ≠ "" := by
  induction words generalizing i with
  | nil => exact ⟨[], rfl, rfl, by simp⟩
  | cons w words ih =>
    obtain ⟨ws, h1, h2, h3⟩ := ih (i + 1)
    by_cases h : w = 0
    · exact ⟨ws, by simp [wordLoop, h, h1], by simp [h, h2], h3⟩
    · refine ⟨(wordText word_syms w, times.getD i 0, lengths.getD i 0) :: ws, ?_, ?_, ?_⟩
      · simp [wordLoop, h, h1]
      · simp [h, h2]
      · intro e he
        rcases List.mem_cons.mp he with rfl | he
        · exact wordText_ne_empty word_syms w
        · exact h3 e he

theorem wordText_eq (word_syms : Option (Int → String)) (w : Int) :
    wordText word_syms w =
      (match word_syms with
        | some find => if find w = "" then "???" else find w
        | none => "???") := by
  cases word_syms <;> simp [wordText]

theorem WordLines_spec_cons (word_syms : Option (Int → String)) (w t l : Int)
    (words times lengths : List Int) :
    WordLines_spec word_syms (w :: words) (t :: times) (l :: lengths) =
      if w = 0 then WordLines_spec word_syms words times lengths
      else Line.WORD (wordText word_syms w) t l ::
        WordLines_spec word_syms words times lengths := by
  by_cases h : w = 0
  · simp [WordLines_spec, List.filter_cons, h]
  · simp [WordLines_spec, List.filter_cons, h, wordText_eq]

theorem wordLoop_eq_spec (word_syms : Option (Int → String)) (times lengths : List Int)
    (i : Nat) (words : List Int) (ht : times.length = i + words.length)
    (hl : lengths.length = i + words.length) :
    wordLoop word_syms times lengths i words =
      WordLines_spec word_syms words (times.drop i) (lengths.drop i) := by
  induction words generalizing i with
  | nil => simp [wordLoop, WordLines_spec]
  | cons w words ih =>
    have hti : i < times.length := by simp at ht; omega
    have hli : i < lengths.length := by simp at hl; omega
    have ih' := ih (i + 1) (by simp at ht; omega) (by simp at hl; omega)
    rw [List.drop_eq_getElem_cons hti, List.drop_eq_getElem_cons hli, WordLines_spec_cons,
      wordLoop, ih', List.getD_eq_getElem _ _ hti, List.getD_eq_getElem _ _ hli]

/-! ## Claims about the session and its output -/

/-- C5: a session whose first read already reports end of stream (so that no
sample is counted) hands no line at all to `WriteLine`, whatever the Recognizer
returns: the worker's only action is the decode-advance step of that round,
then the `break` of line 598. -/
theorem C5_zero_samples_no_lines {R : Type} (cfg : Config) (rec : Recognizer R)
    (reads : List ReadResult) (rets : List Int)
    (h : ∀ rd ∈ reads.head?, rd.ans = false) :
    ∃ log, ThreadProc_session cfg rec reads rets = some log ∧
      log = [Event.AdvanceDecoding] ∧ linesOf log = [] ∧
      (clientLoop cfg rec reads (Session.start rec) rets).1.samp_offset = 0 := by
  refine ⟨[Event.AdvanceDecoding], ?_, rfl, rfl, ?_⟩
  · exact utteranceLoop_empty_stream cfg rec reads.length reads rets h
  · rw [clientLoop_empty_stream cfg rec reads rets h]

/-- The peer sends a short packet and closes. -/
theorem C5_zero_samples_no_lines_witness :
    ∃ log, ThreadProc_session Demo.configDefault Demo.recognizer [⟨false, [3, 4]⟩] [] = some log ∧
      log = [Event.AdvanceDecoding] ∧ linesOf log = [] ∧
      (clientLoop Demo.configDefault Demo.recognizer [⟨false, [3, 4]⟩]
        (Session.start Demo.recognizer) []).1.samp_offset = 0 :=
  C5_zero_samples_no_lines Demo.configDefault Demo.recognizer [⟨false, [3, 4]⟩] [] (by simp)

/-- C6, as stated, fails: with the default packets of 256 samples a peer sends
100 samples and closes. The Recognizer is given the 100 samples (line 576),
but `Read` returned `false`, so line 578 counts none of them, line 596 breaks,
and the session writes no line at all: no `RESULT:NUM`, no `RESULT:DONE`. -/
theorem C6_sub_packet_session_no_lines :
    (Demo.shortRead.wav_data.filter (fun x => decide (x ≠ 0))).length = 100 ∧
      (clientLoop Demo.configDefault Demo.sampleCounter [Demo.shortRead]
        (Session.start Demo.sampleCounter) []).1.decoder = 100 ∧
      (clientLoop Demo.configDefault Demo.sampleCounter [Demo.shortRead]
        (Session.start Demo.sampleCounter) []).1.samp_offset = 0 ∧
      ThreadProc_session Demo.configDefault Demo.sampleCounter [Demo.shortRead] [] =
        some [Event.AdvanceDecoding] ∧
      (ThreadProc_session Demo.configDefault Demo.sampleCounter [Demo.shortRead] []).map
        linesOf = some [] := by
  decide

/-- C6, amended: a session that receives at least one full packet (full reads
`fulls`, packets of at least one sample), at most 2^31 - 1 samples in all (the
range of the `int32` counter), and then meets end of stream (every later read
reports it) hands to `WriteLine`, in this order: zero or more `PARTIAL` lines,
one `RESULT:NUM` line, the `RESULT:WORD` lines of the session's final
hypothesis in its order, one `RESULT:DONE` line, and nothing more; for every
Recognizer and whatever the writes return; and when no write fails every one
of these lines goes out whole. -/
theorem C6_line_order {R : Type} (cfg : Config) (rec : Recognizer R)
    (fulls tail : List ReadResult) (rets : List Int)
    (hps : 0 < packet_samples cfg) (hne : fulls ≠ [])
    (hf : ∀ rd ∈ fulls, rd.ans = true) (ht : ∀ rd ∈ tail, rd.ans = false)
    (_hrange : (fulls.length : Int) * packet_samples cfg ≤ 2147483647) :
    ∃ (log : List Event) (ps : List String) (ws : List (String × Int × Int)),
      ThreadProc_session cfg rec (fulls ++ tail) rets = some log ∧
      linesOf log =
        ps.map Line.PARTIAL ++
          [Line.NUM (words_num (finalHypothesis cfg rec (fulls ++ tail) rets).words)
            (fulls.length * packet_samples cfg)] ++
          ws.map (fun e => Line.WORD e.1 e.2.1 e.2.2) ++ [Line.DONE] ∧
      ws.map (fun e => Line.WORD e.1 e.2.1 e.2.2) =
        wordLoop cfg.word_syms (finalHypothesis cfg rec (fulls ++ tail) rets).times
          (finalHypothesis cfg rec (fulls ++ tail) rets).lengths 0
          (finalHypothesis cfg rec (fulls ++ tail) rets).words ∧
      ((∀ r ∈ rets, 0 < r) → allWritten log) := by
  have ht0 : ∀ rd ∈ tail.head?, rd.ans = false :=
    fun rd hrd => ht rd (List.mem_of_mem_head? hrd)
  obtain ⟨hoff, ⟨ps, hps1⟩, _⟩ :=
    clientLoop_stream cfg rec fulls tail (Session.start rec) rets hf ht0
  have hlen : 0 < fulls.length := List.length_pos.mpr hne
  have hmul : (0 : Int) < (fulls.length : Int) * packet_samples cfg :=
    Int.mul_pos (by exact_mod_cast hlen) hps
  obtain ⟨ws, hws, _, _⟩ := wordLoop_entries cfg.word_syms
    (finalHypothesis cfg rec (fulls ++ tail) rets).times
    (finalHypothesis cfg rec (fulls ++ tail) rets).lengths 0
    (finalHypothesis cfg rec (fulls ++ tail) rets).words
  have hrun := session_of_stream cfg rec fulls tail rets hmul hf ht
  refine ⟨_, ps, ws, hrun, ?_, hws.symm, ?_⟩
  · rw [linesOf_append, linesOf_append, hps1, finalDecode_lines, hoff,
      show (Session.start rec).samp_offset = 0 from rfl, ← hws]
    simp [GetDiagnosticsAndPrintOutput, linesOf, finalHypothesis, finalDecoder]
  · intro hok
    exact utteranceLoop_ok cfg rec _ _ rets _ hok hrun

/-- Twenty packets of 256 samples, then a short read. -/
theorem C6_line_order_witness :
    ∃ (log : List Event) (ps : List String) (ws : List (String × Int × Int)),
      ThreadProc_session Demo.configDefault Demo.recognizer
          (List.replicate 20 ⟨true, []⟩ ++ [⟨false, []⟩]) [] = some log ∧
      linesOf log =
        ps.map Line.PARTIAL ++
          [Line.NUM
            (words_num (finalHypothesis Demo.configDefault Demo.recognizer
              (List.replicate 20 ⟨true, []⟩ ++ [⟨false, []⟩]) []).words)
            ((List.replicate 20 (⟨true, []⟩ : ReadResult)).length *
              packet_samples Demo.configDefault)] ++
          ws.map (fun e => Line.WORD e.1 e.2.1 e.2.2) ++ [Line.DONE] ∧
      ws.map (fun e => Line.WORD e.1 e.2.1 e.2.2) =
        wordLoop Demo.configDefault.word_syms
          (finalHypothesis Demo.configDefault Demo.recognizer
            (List.replicate 20 ⟨true, []⟩ ++ [⟨false, []⟩]) []).times
          (finalHypothesis Demo.configDefault Demo.recognizer
            (List.replicate 20 ⟨true, []⟩ ++ [⟨false, []⟩]) []).lengths 0
          (finalHypothesis Demo.configDefault Demo.recognizer
            (List.replicate 20 ⟨true, []⟩ ++ [⟨false, []⟩]) []).words ∧
      ((∀ r ∈ ([] : List Int), 0 < r) → allWritten log) :=
  C6_line_order Demo.configDefault Demo.recognizer (List.replicate 20 ⟨true, []⟩)
    [⟨false, []⟩] [] (by decide) (by decide) (by decide) (by decide) (by decide)

/-- C7, as stated, fails, in two ways. With a chunk of one second (16000
samples) a session of 19 default packets (4864 samples) stays below one full
chunk, and still the decode-advance step of its terminating read finds more
than 0.3 s of new audio and writes a `PARTIAL` line before the final result.
And a peer that sends 100 samples, less than one packet, and closes gets no
line at all: the Recognizer is given the samples, but none is counted (line
578) and line 596 breaks before the final decode. -/
theorem C7_partial_below_one_chunk :
    0 < Demo.configLongChunk.packet_size ∧
      Demo.configLongChunk.chunk_length = chunk_length true 16000 ∧
      0 < (((List.replicate 19 (⟨true, []⟩ : ReadResult)).length : Int) *
        packet_samples Demo.configLongChunk) ∧
      (((List.replicate 19 (⟨true, []⟩ : ReadResult)).length : Int) *
        packet_samples Demo.configLongChunk) < Demo.configLongChunk.chunk_length ∧
      (ThreadProc_session Demo.configLongChunk Demo.recognizer
          (List.replicate 19 ⟨true, []⟩) []).map linesOf =
        some [Line.PARTIAL "a", Line.NUM 2 4864, Line.WORD "a" 3 4, Line.WORD "???" 7 2,
          Line.DONE] ∧
      (clientLoop Demo.configLongChunk Demo.sampleCounter [Demo.shortRead]
        (Session.start Demo.sampleCounter) []).1.decoder = 100 ∧
      (ThreadProc_session Demo.configLongChunk Demo.sampleCounter [Demo.shortRead] []).map
        linesOf = some [] := by
  decide

/-- C7, amended: a session that receives at least one full packet, with fewer
samples counted than one full decode chunk and at most 4800 (0.3 s) in all,
and then meets end of stream, hands to `WriteLine` no `PARTIAL` line, exactly
one `RESULT:NUM` line, one `RESULT:WORD` line for each word of the session's
final hypothesis whose id is not 0, and `RESULT:DONE` last; for every chunk
length, packet size and Recognizer. -/
theorem C7_short_session_lines {R : Type} (cfg : Config) (rec : Recognizer R)
    (fulls tail : List ReadResult) (rets : List Int)
    (hf : ∀ rd ∈ fulls, rd.ans = true) (ht : ∀ rd ∈ tail, rd.ans = false)
    (hpos : 0 < (fulls.length : Int) * packet_samples cfg)
    (_hchunk : (fulls.length : Int) * packet_samples cfg < cfg.chunk_length)
    (hgap : (fulls.length : Int) * packet_samples cfg ≤ 4800) :
    ∃ (log : List Event) (ws : List (String × Int × Int)),
      ThreadProc_session cfg rec (fulls ++ tail) rets = some log ∧
      linesOf log =
        [Line.NUM (words_num (finalHypothesis cfg rec (fulls ++ tail) rets).words)
            (fulls.length * packet_samples cfg)] ++
          ws.map (fun e => Line.WORD e.1 e.2.1 e.2.2) ++ [Line.DONE] ∧
      ws.map (fun e => Line.WORD e.1 e.2.1 e.2.2) =
        wordLoop cfg.word_syms (finalHypothesis cfg rec (fulls ++ tail) rets).times
          (finalHypothesis cfg rec (fulls ++ tail) rets).lengths 0
          (finalHypothesis cfg rec (fulls ++ tail) rets).words ∧
      ws.length =
        ((finalHypothesis cfg rec (fulls ++ tail) rets).words.filter
          (fun w => decide (w ≠ 0))).length := by
  have ht0 : ∀ rd ∈ tail.head?, rd.ans = false :=
    fun rd hrd => ht rd (List.mem_of_mem_head? hrd)
  have hps := packet_samples_nonneg cfg fulls.length hpos
  obtain ⟨hoff, _, _⟩ :=
    clientLoop_stream cfg rec fulls tail (Session.start rec) rets hf ht0
  have hquiet := clientLoop_quiet cfg rec fulls tail (Session.start rec) rets hf ht0 hps rfl
    (by rw [show (Session.start rec).samp_offset = 0 from rfl]; linarith)
  obtain ⟨ws, hws, hlen, _⟩ := wordLoop_entries cfg.word_syms
    (finalHypothesis cfg rec (fulls ++ tail) rets).times
    (finalHypothesis cfg rec (fulls ++ tail) rets).lengths 0
    (finalHypothesis cfg rec (fulls ++ tail) rets).words
  refine ⟨_, ws, session_of_stream cfg rec fulls tail rets hpos hf ht, ?_, hws.symm, hlen⟩
  rw [linesOf_append, linesOf_append, hquiet, finalDecode_lines, hoff,
    show (Session.start rec).samp_offset = 0 from rfl, ← hws]
  simp [GetDiagnosticsAndPrintOutput, linesOf, finalHypothesis, finalDecoder]

/-- Ten packets of 256 samples with the default chunk of 2880 samples. -/
theorem C7_short_session_lines_witness :
    ∃ (log : List Event) (ws : List (String × Int × Int)),
      ThreadProc_session Demo.configDefault Demo.recognizer
          (List.replicate 10 ⟨true, []⟩ ++ []) [] = some log ∧
      linesOf log =
        [Line.NUM
            (words_num (finalHypothesis Demo.configDefault Demo.recognizer
              (List.replicate 10 ⟨true, []⟩ ++ []) []).words)
            ((List.replicate 10 (⟨true, []⟩ : ReadResult)).length *
              packet_samples Demo.configDefault)] ++
          ws.map (fun e => Line.WORD e.1 e.2.1 e.2.2) ++ [Line.DONE] ∧
      ws.map (fun e => Line.WORD e.1 e.2.1 e.2.2) =
        wordLoop Demo.configDefault.word_syms
          (finalHypothesis Demo.configDefault Demo.recognizer
            (List.replicate 10 ⟨true, []⟩ ++ []) []).times
          (finalHypothesis Demo.configDefault Demo.recognizer
            (List.replicate 10 ⟨true, []⟩ ++ []) []).lengths 0
          (finalHypothesis Demo.configDefault Demo.recognizer
            (List.replicate 10 ⟨true, []⟩ ++ []) []).words ∧
      ws.length =
        ((finalHypothesis Demo.configDefault Demo.recognizer
          (List.replicate 10 ⟨true, []⟩ ++ []) []).words.filter
          (fun w => decide (w ≠ 0))).length :=
  C7_short_session_lines Demo.configDefault Demo.recognizer (List.replicate 10 ⟨true, []⟩)
    [] [] (by decide) (by decide) (by decide) (by decide) (by decide)

/-- C8, as stated, fails: in the default configuration, a session of 19
packets whose first `write(2)` returns 0. `WriteLine` returns `false` for the
`PARTIAL` line; the session goes on, makes the final decode (`InputFinished`,
`FinalizeDecoding`, the final `GetBestPath`) and hands four more lines to
`WriteLine`. -/
theorem C8_session_goes_on_after_failed_write :
    WriteLine [0] ((Line.PARTIAL "a").render Demo.fmt) = (false, []) ∧
      ThreadProc_session Demo.configDefault Demo.recognizer
          (List.replicate 19 ⟨true, []⟩) [0] =
        some [Event.AdvanceDecoding,
          Event.AdvanceDecoding, Event.GetBestPath false,
          Event.WriteLine (Line.PARTIAL "a") false,
          Event.InputFinished, Event.AdvanceDecoding, Event.FinalizeDecoding,
          Event.GetBestPath true,
          Event.WriteLine (Line.NUM 2 4864) true,
          Event.WriteLine (Line.WORD "a" 3 4) true,
          Event.WriteLine (Line.WORD "???" 7 2) true,
          Event.WriteLine Line.DONE true,
          Event.AdvanceDecoding] := by
  decide

/-- C8, amended: a write that returns `≤ 0` makes `WriteLine` return `false`
at once, be it the first write of the line or a later one with bytes still to
write, and nothing else: the session ignores the value. For any two
sequences of write results the session ends, and it makes the same calls on
the Recognizer and hands the same lines to `WriteLine`, in the same order. -/
theorem C8_write_result_ignored {R : Type} (cfg : Config) (rec : Recognizer R)
    (reads : List ReadResult) (rets1 rets2 : List Int) :
    (∀ (line : String) (r : Int) (rest : List Int), r ≤ 0 →
        WriteLine (r :: rest) line = (false, rest)) ∧
      (∀ (to_write r : Int) (rest : List Int), 0 < to_write → r ≤ 0 →
        WriteLine.loop to_write (r :: rest) = (false, rest)) ∧
      ∃ log1 log2,
        ThreadProc_session cfg rec reads rets1 = some log1 ∧
        ThreadProc_session cfg rec reads rets2 = some log2 ∧
        log1.map Event.attempt = log2.map Event.attempt ∧
        linesOf log1 = linesOf log2 := by
  refine ⟨fun line r rest hr => WriteLine_fails line r rest hr,
    fun to_write r rest hpos hr => WriteLine_loop_fails to_write r rest hpos hr, ?_⟩
  obtain ⟨log1, h1⟩ := utteranceLoop_total cfg rec (reads.length + 1) reads rets1 (by omega)
  obtain ⟨log2, h2⟩ := utteranceLoop_total cfg rec (reads.length + 1) reads rets2 (by omega)
  have h := utteranceLoop_rets cfg rec (reads.length + 1) reads rets1 rets2
  rw [h1, h2] at h
  have hmap : log1.map Event.attempt = log2.map Event.attempt := by simpa using h
  refine ⟨log1, log2, h1, h2, hmap, ?_⟩
  rw [← linesOf_attempt log1, ← linesOf_attempt log2, hmap]

/-- C9: with `end_of_utterance = true`, `GetDiagnosticsAndPrintOutput` hands
to `WriteLine` one `RESULT:NUM` line followed by `RESULT:WORD` lines only; the
count in the first equals the number of the latter, and both equal the number
of entries of `words` whose id is not 0. -/
theorem C9_num_counts_word_lines (word_syms : Option (Int → String)) (lat : Lattice)
    (tot_samples : Int) :
    ∃ ws : List (String × Int × Int),
      GetDiagnosticsAndPrintOutput true word_syms lat tot_samples =
        Line.NUM (words_num lat.words) tot_samples ::
          ws.map (fun e => Line.WORD e.1 e.2.1 e.2.2) ∧
      words_num lat.words = (ws.length : Int) ∧
      ws.length = (lat.words.filter (fun w => decide (w ≠ 0))).length := by
  obtain ⟨ws, hws, hlen, _⟩ := wordLoop_entries word_syms lat.times lat.lengths 0 lat.words
  refine ⟨ws, ?_, ?_, hlen⟩
  · simp [GetDiagnosticsAndPrintOutput, hws]
  · rw [words_num_eq, hlen]

/-- C10: for an alignment whose three vectors have one length, the
`RESULT:WORD` lines of `GetDiagnosticsAndPrintOutput` are the entries with a
word id other than 0, in their order, each printed as
`RESULT:WORD=<w>,<start>,<end>` with the symbol of the id, or `"???"` when the
symbol is empty or there is no symbol table; no line has an empty word. -/
theorem C10_word_lines (word_syms : Option (Int → String)) (F : FloatFmt)
    (linear words times lengths : List Int) (tot_samples : Int)
    (ht : times.length = words.length) (hl : lengths.length = words.length) :
    GetDiagnosticsAndPrintOutput true word_syms
        { linear := linear, words := words, times := times, lengths := lengths } tot_samples =
      Line.NUM (words_num words) tot_samples ::
        WordLines_spec word_syms words times lengths ∧
    (∀ w t l, (Line.WORD w t l).render F =
      "RESULT:WORD=" ++ w ++ "," ++ F.start t ++ "," ++ F.stop t l) ∧
    (∀ w t l, Line.WORD w t l ∈ WordLines_spec word_syms words times lengths → w ≠ "") ∧
    (∀ line ∈ WordLines_spec word_syms words times lengths, ∃ w t l, line = Line.WORD w t l) := by
  have hspec : wordLoop word_syms times lengths 0 words =
      WordLines_spec word_syms words times lengths := by
    have := wordLoop_eq_spec word_syms times lengths 0 words (by omega) (by omega)
    simpa using this
  obtain ⟨ws, hws, _, hne⟩ := wordLoop_entries word_syms times lengths 0 words
  refine ⟨?_, fun _ _ _ => rfl, ?_, ?_⟩
  · simp [GetDiagnosticsAndPrintOutput, hspec]
  · intro w t l hmem
    rw [← hspec, hws] at hmem
    obtain ⟨e, he, heq⟩ := List.mem_map.mp hmem
    have hw : e.1 = w := by injection heq
    rw [← hw]
    exact hne e he
  · intro line hmem
    rw [← hspec, hws] at hmem
    obtain ⟨e, _, heq⟩ := List.mem_map.mp hmem
    exact ⟨e.1, e.2.1, e.2.2, heq.symm⟩

/-- A silence, a word the table knows and a word it does not know. -/
theorem C10_word_lines_witness :
    GetDiagnosticsAndPrintOutput true (some Demo.word_syms)
        { linear := [1], words := [0, 1, 2], times := [0, 3, 7], lengths := [3, 4, 2] } 4801 =
      Line.NUM (words_num [0, 1, 2]) 4801 ::
        WordLines_spec (some Demo.word_syms) [0, 1, 2] [0, 3, 7] [3, 4, 2] ∧
    (∀ w t l, (Line.WORD w t l).render Demo.fmt =
      "RESULT:WORD=" ++ w ++ "," ++ Demo.fmt.start t ++ "," ++ Demo.fmt.stop t l) ∧
    (∀ w t l, Line.WORD w t l ∈
      WordLines_spec (some Demo.word_syms) [0, 1, 2] [0, 3, 7] [3, 4, 2] → w ≠ "") ∧
    (∀ line ∈ WordLines_spec (some Demo.word_syms) [0, 1, 2] [0, 3, 7] [3, 4, 2],
      ∃ w t l, line = Line.WORD w t l) :=
  C10_word_lines (some Demo.word_syms) Demo.fmt [1] [0, 1, 2] [0, 3, 7] [3, 4, 2] 4801
    rfl rfl

/-- C11, as stated, fails: with `chunk_length_secs <= 0` (the whole input in one
chunk) a session of 19 default packets (4864 samples) makes its one
decode-advance step at the terminating read, finds more than 0.3 s of new
audio there and writes a `PARTIAL` line before the final result. Nor does
every stream end in the final result: a peer that sends 100 samples, less than
one packet, and closes gets no line at all, since none of them is counted
(line 578) and line 596 breaks before the final decode. -/
theorem C11_partial_with_one_chunk :
    Demo.configOneChunk.chunk_length = chunk_length false 0 ∧
      ThreadProc_session Demo.configOneChunk Demo.recognizer
          (List.replicate 19 ⟨true, []⟩) [] =
        some [Event.AdvanceDecoding, Event.GetBestPath false,
          Event.WriteLine (Line.PARTIAL "a") true,
          Event.InputFinished, Event.AdvanceDecoding, Event.FinalizeDecoding,
          Event.GetBestPath true,
          Event.WriteLine (Line.NUM 2 4864) true,
          Event.WriteLine (Line.WORD "a" 3 4) true,
          Event.WriteLine (Line.WORD "???" 7 2) true,
          Event.WriteLine Line.DONE true,
          Event.AdvanceDecoding] ∧
      (ThreadProc_session Demo.configOneChunk Demo.recognizer
          (List.replicate 19 ⟨true, []⟩) []).map linesOf =
        some [Line.PARTIAL "a", Line.NUM 2 4864, Line.WORD "a" 3 4, Line.WORD "???" 7 2,
          Line.DONE] ∧
      (clientLoop Demo.configOneChunk Demo.sampleCounter [Demo.shortRead]
        (Session.start Demo.sampleCounter) []).1.decoder = 100 ∧
      (ThreadProc_session Demo.configOneChunk Demo.sampleCounter [Demo.shortRead] []).map
        linesOf = some [] := by
  decide

/-- C11, amended: with `chunk_length_secs <= 0` the whole stream is one chunk.
A session that receives at least one full packet (and fewer than 2^31 - 1
samples, the range of the counter) makes no decode-advance step and writes
nothing while the stream lasts; at the terminating read it makes one step,
which writes at most one `PARTIAL` line, and none when at most 4800 samples
were counted; then come the final result of the session's own final
hypothesis (`RESULT:NUM`, the `RESULT:WORD` lines, `RESULT:DONE`) and nothing
more; for every Recognizer. -/
theorem C11_one_chunk_session {R : Type} (cfg : Config) (rec : Recognizer R)
    (scaled : Int) (fulls tail : List ReadResult) (rets : List Int)
    (hchunk : cfg.chunk_length = chunk_length false scaled)
    (hf : ∀ rd ∈ fulls, rd.ans = true) (ht : ∀ rd ∈ tail, rd.ans = false)
    (hpos : 0 < (fulls.length : Int) * packet_samples cfg)
    (hrange : (fulls.length : Int) * packet_samples cfg < 2147483647) :
    ∃ (log : List Event) (s' : Session R) (ps : List String)
        (ws : List (String × Int × Int)),
      ThreadProc_session cfg rec (fulls ++ tail) rets = some log ∧
      s'.samp_offset = fulls.length * packet_samples cfg ∧ s'.samp_partial = 0 ∧
      (clientLoop cfg rec (fulls ++ tail) (Session.start rec) rets).1 =
        (decodeStep cfg rec s' rets).1 ∧
      log =
        (decodeStep cfg rec s' rets).2.1 ++
          (finalDecode cfg rec (decodeStep cfg rec s' rets).1
            (decodeStep cfg rec s' rets).2.2).1 ++ [Event.AdvanceDecoding] ∧
      linesOf log =
        ps.map Line.PARTIAL ++
          [Line.NUM (words_num (finalHypothesis cfg rec (fulls ++ tail) rets).words)
            (fulls.length * packet_samples cfg)] ++
          ws.map (fun e => Line.WORD e.1 e.2.1 e.2.2) ++ [Line.DONE] ∧
      ws.map (fun e => Line.WORD e.1 e.2.1 e.2.2) =
        wordLoop cfg.word_syms (finalHypothesis cfg rec (fulls ++ tail) rets).times
          (finalHypothesis cfg rec (fulls ++ tail) rets).lengths 0
          (finalHypothesis cfg rec (fulls ++ tail) rets).words ∧
      ps.length ≤ 1 ∧
      ((fulls.length : Int) * packet_samples cfg ≤ 4800 → ps = []) := by
  have ht0 : ∀ rd ∈ tail.head?, rd.ans = false :=
    fun rd hrd => ht rd (List.mem_of_mem_head? hrd)
  have hps := packet_samples_nonneg cfg fulls.length hpos
  have hb : (fulls.length : Int) * packet_samples cfg < cfg.chunk_length := by
    rw [hchunk]
    simpa [chunk_length] using hrange
  obtain ⟨s', hoff, hmk, hcl⟩ := clientLoop_whole_input cfg rec fulls tail rets hf ht0 hps hb
  obtain ⟨hoff1, _, _⟩ :=
    clientLoop_stream cfg rec fulls tail (Session.start rec) rets hf ht0
  obtain ⟨ps, hlines, hshort, hnone⟩ := decodeStep_lines_short cfg rec s' rets
  have hev : (clientLoop cfg rec (fulls ++ tail) (Session.start rec) rets).2.1 =
      (decodeStep cfg rec s' rets).2.1 := by rw [hcl]
  obtain ⟨ws, hws, _, _⟩ := wordLoop_entries cfg.word_syms
    (finalHypothesis cfg rec (fulls ++ tail) rets).times
    (finalHypothesis cfg rec (fulls ++ tail) rets).lengths 0
    (finalHypothesis cfg rec (fulls ++ tail) rets).words
  have hrun := session_of_stream cfg rec fulls tail rets hpos hf ht
  refine ⟨_, s', ps, ws, hrun, hoff, hmk, by rw [hcl], by rw [hcl], ?_, hws.symm,
    hshort, ?_⟩
  · rw [linesOf_append, linesOf_append, hev, hlines, finalDecode_lines, hoff1,
      show (Session.start rec).samp_offset = 0 from rfl, ← hws]
    simp [GetDiagnosticsAndPrintOutput, linesOf, finalHypothesis, finalDecoder]
  · intro hle
    exact hnone (by rw [hoff, hmk]; linarith)

/-- Ten default packets with the whole input in one chunk. -/
theorem C11_one_chunk_session_witness :
    ∃ (log : List Event) (s' : Session Nat) (ps : List String)
        (ws : List (String × Int × Int)),
      ThreadProc_session Demo.configOneChunk Demo.recognizer
          (List.replicate 10 ⟨true, []⟩ ++ []) [] = some log ∧
      s'.samp_offset =
        (List.replicate 10 (⟨true, []⟩ : ReadResult)).length *
          packet_samples Demo.configOneChunk ∧
      s'.samp_partial = 0 ∧
      (clientLoop Demo.configOneChunk Demo.recognizer (List.replicate 10 ⟨true, []⟩ ++ [])
          (Session.start Demo.recognizer) []).1 =
        (decodeStep Demo.configOneChunk Demo.recognizer s' []).1 ∧
      log =
        (decodeStep Demo.configOneChunk Demo.recognizer s' []).2.1 ++
          (finalDecode Demo.configOneChunk Demo.recognizer
            (decodeStep Demo.configOneChunk Demo.recognizer s' []).1
            (decodeStep Demo.configOneChunk Demo.recognizer s' []).2.2).1 ++
          [Event.AdvanceDecoding] ∧
      linesOf log =
        ps.map Line.PARTIAL ++
          [Line.NUM
            (words_num (finalHypothesis Demo.configOneChunk Demo.recognizer
              (List.replicate 10 ⟨true, []⟩ ++ []) []).words)
            ((List.replicate 10 (⟨true, []⟩ : ReadResult)).length *
              packet_samples Demo.configOneChunk)] ++
          ws.map (fun e => Line.WORD e.1 e.2.1 e.2.2) ++ [Line.DONE] ∧
      ws.map (fun e => Line.WORD e.1 e.2.1 e.2.2) =
        wordLoop Demo.configOneChunk.word_syms
          (finalHypothesis Demo.configOneChunk Demo.recognizer
            (List.replicate 10 ⟨true, []⟩ ++ []) []).times
          (finalHypothesis Demo.configOneChunk Demo.recognizer
            (List.replicate 10 ⟨true, []⟩ ++ []) []).lengths 0
          (finalHypothesis Demo.configOneChunk Demo.recognizer
            (List.replicate 10 ⟨true, []⟩ ++ []) []).words ∧
      ps.length ≤ 1 ∧
      (((List.replicate 10 (⟨true, []⟩ : ReadResult)).length : Int) *
        packet_samples Demo.configOneChunk ≤ 4800 → ps = []) :=
  C11_one_chunk_session Demo.configOneChunk Demo.recognizer 0
    (List.replicate 10 ⟨true, []⟩) [] [] rfl (by decide) (by decide) (by decide) (by decide)

/-- C12, as stated, fails: at a decode-advance step with exactly 4800 samples
received since the last partial result and a decoded frame, no hypothesis is
requested and the watermark stays where it was; so it is in the session of one
packet of 4800 samples, which asks for the final hypothesis only. -/
theorem C12_exactly_4800_requests_nothing :
    Demo.sessionAt4800.samp_offset - Demo.sessionAt4800.samp_partial = 4800 ∧
      Demo.recognizer.NumFramesDecoded
        (Demo.recognizer.AdvanceDecoding Demo.sessionAt4800.decoder) ≥ 1 ∧
      (decodeStep Demo.configDefault Demo.recognizer Demo.sessionAt4800 []).2.1 =
        [Event.AdvanceDecoding] ∧
      Session.samp_partial
        (decodeStep Demo.configDefault Demo.recognizer Demo.sessionAt4800 []).1 = 0 ∧
      packet_samples Demo.configPacket4800 = 4800 ∧
      ThreadProc_session Demo.configPacket4800 Demo.recognizer [⟨true, []⟩] [] =
        some [Event.AdvanceDecoding,
          Event.AdvanceDecoding,
          Event.InputFinished, Event.AdvanceDecoding, Event.FinalizeDecoding,
          Event.GetBestPath true,
          Event.WriteLine (Line.NUM 2 4800) true,
          Event.WriteLine (Line.WORD "a" 3 4) true,
          Event.WriteLine (Line.WORD "???" 7 2) true,
          Event.WriteLine Line.DONE true,
          Event.AdvanceDecoding] := by
  decide

/-- C12, amended: at every decode-advance step of the read loop, a non-final
best-path hypothesis is requested, and the watermark `samp_partial` is set to
`samp_offset`, exactly when more than 4800 samples (0.3 s at 16 kHz) were
received since the last partial result and the Recognizer, after its
`AdvanceDecoding`, reports at least one decoded frame; otherwise no hypothesis
is requested and the watermark is unchanged. Exactly 4800 new samples request
nothing; 4801 with a decoded frame do. -/
theorem C12_partial_request_rule {R : Type} (cfg : Config) (rec : Recognizer R)
    (s : Session R) (rets : List Int) :
    (Event.GetBestPath false ∈ (decodeStep cfg rec s rets).2.1 ↔
      (s.samp_offset - s.samp_partial > 4800 ∧
        rec.NumFramesDecoded (rec.AdvanceDecoding s.decoder) ≥ 1)) ∧
    Session.samp_partial (decodeStep cfg rec s rets).1 =
      (if s.samp_offset - s.samp_partial > 4800 ∧
          rec.NumFramesDecoded (rec.AdvanceDecoding s.decoder) ≥ 1
        then s.samp_offset else s.samp_partial) ∧
    (decodeStep cfg rec s rets).1.samp_offset = s.samp_offset ∧
    (decodeStep cfg rec s rets).1.samp_process = s.samp_offset ∧
    (s.samp_offset - s.samp_partial = 4800 →
      (decodeStep cfg rec s rets).2.1 = [Event.AdvanceDecoding] ∧
        Session.samp_partial (decodeStep cfg rec s rets).1 = s.samp_partial) ∧
    (s.samp_offset - s.samp_partial = 4801 →
      rec.NumFramesDecoded (rec.AdvanceDecoding s.decoder) ≥ 1 →
      Event.GetBestPath false ∈ (decodeStep cfg rec s rets).2.1 ∧
        Session.samp_partial (decodeStep cfg rec s rets).1 = s.samp_offset) := by
  have hfr : rec.NumFramesDecoded (rec.AdvanceDecoding s.decoder) ≥ 1 ↔
      rec.NumFramesDecoded (rec.AdvanceDecoding s.decoder) > 0 := by
    constructor <;> intro h <;> omega
  rw [decodeStep_eq]
  by_cases hc : s.samp_offset - s.samp_partial > 4800 ∧
      rec.NumFramesDecoded (rec.AdvanceDecoding s.decoder) > 0
  · have hc' : s.samp_offset - s.samp_partial > 4800 ∧
        rec.NumFramesDecoded (rec.AdvanceDecoding s.decoder) ≥ 1 := ⟨hc.1, hfr.mpr hc.2⟩
    rw [if_pos hc, if_pos hc']
    refine ⟨⟨fun _ => hc', fun _ => by simp⟩, rfl, rfl, rfl, ?_, ?_⟩
    · intro h
      omega
    · intro _ _
      exact ⟨by simp, rfl⟩
  · have hc' : ¬ (s.samp_offset - s.samp_partial > 4800 ∧
        rec.NumFramesDecoded (rec.AdvanceDecoding s.decoder) ≥ 1) :=
      fun h => hc ⟨h.1, hfr.mp h.2⟩
    rw [if_neg hc, if_neg hc']
    refine ⟨⟨fun h => by simp at h, fun h => absurd h hc'⟩, rfl, rfl, rfl, ?_, ?_⟩
    · intro _
      exact ⟨rfl, rfl⟩
    · intro h hn
      exact absurd ⟨by omega, hfr.mp hn⟩ hc

end KaldiAudioServer
